import Mathlib

/-!
Verification of the Immo-DataScraper extraction and crawl pipeline.

This file gives a shallow embedding of the pipeline implemented in
`utils/scrape_pipeline.py` (HTTP fetcher with retry/backoff, URL collector,
concurrency orchestrator) and of the field extractor implemented in
`sources/immowelt.py` (`ImmoWeltSource`), and proves the specified
properties about them.

Modelling conventions:
* Python dicts are association lists with unique keys, insertion ordered;
  `d[k] = v` is `assocSet` (replace in place or append), `d.update(p)` is
  `pyUpdate`, `d.setdefault` is `pySetdefault`.
* Python scalar values held in a listing record are the inductive `PyVal`
  (`null` models Python `None`; `float` results are modelled as exact
  rationals, which is faithful for every property stated here since no
  claim depends on binary rounding).
* External collaborators (the HTTP transport, and the two HTML engines
  BeautifulSoup / JustHTML that only locate nodes by `data-testid` and
  return their text) are oracles passed in as functions, exactly at the
  boundary at which the Python code consumes them.
* The concrete regular expressions of `immowelt.py` are implemented
  directly as character-list scanners with Python `re.search` leftmost,
  greedy-with-backtracking semantics, specialised to each pattern.
-/

set_option maxRecDepth 4000

namespace ImmoScraper

/-- Python values that can appear in a listing record or parsed JSON. -/
inductive PyVal where
  | null : PyVal
  | bool : Bool → PyVal
  | int : Int → PyVal
  | float : ℚ → PyVal
  | str : String → PyVal
  | list : List PyVal → PyVal
  | dict : List (String × PyVal) → PyVal

/-- An insertion-ordered Python dict with `PyVal` values (a listing record,
a parsed JSON object, ...). Keys are unique in every dict the code builds. -/
abbrev PyDict := List (String × PyVal)

/-- Python `k in d` membership test on an association list. -/
def hasKey {α : Type} (r : List (String × α)) (k : String) : Bool :=
  r.any (fun p => p.1 == k)

/-- Python `d.get(k)` returning `none` when the key is absent. -/
def pyGetOpt {α : Type} (r : List (String × α)) (k : String) : Option α :=
  (r.find? (fun p => p.1 == k)).map Prod.snd

/-- Python `d.get(k)`: the stored value, or `None` when absent. -/
def pyGetD (r : PyDict) (k : String) : PyVal :=
  (pyGetOpt r k).getD PyVal.null

/-- Python `d[k] = v`: replace the value at the existing slot of `k`,
or append a new entry at the end. -/
def assocSet {α : Type} : List (String × α) → String → α → List (String × α)
  | [], k, v => [(k, v)]
  | (k', v') :: t, k, v =>
      if k' == k then (k, v) :: t else (k', v') :: assocSet t k v

/-- Python `d[k] = v` on a listing record. -/
def pySet (r : PyDict) (k : String) (v : PyVal) : PyDict := assocSet r k v

/-- Python `d.setdefault(k, v)`. -/
def pySetdefault (r : PyDict) (k : String) (v : PyVal) : PyDict :=
  if hasKey r k then r else r ++ [(k, v)]

/-- Python `d.update(p)`: assign every entry of `p` into `d`, in order. -/
def pyUpdate (r p : PyDict) : PyDict :=
  p.foldl (fun acc kv => pySet acc kv.1 kv.2) r

/-- Python truthiness of a `PyVal`. -/
def pyTruthy : PyVal → Bool
  | .null => false
  | .bool b => b
  | .int n => n != 0
  | .float q => q != 0
  | .str s => s != ""
  | .list xs => !xs.isEmpty
  | .dict fs => !fs.isEmpty

/-- Python `str(v)`. Only the string branch is ever reached by a theorem in
this file (the record fields it is applied to are guarded to be strings);
the composite branches are a fixed rendering standing for Python's repr. -/
def pyStr : PyVal → String
  | .null => "None"
  | .bool true => "True"
  | .bool false => "False"
  | .int n => toString n
  | .float q => toString q
  | .str s => s
  | .list _ => "[...]"
  | .dict _ => "\x7b...\x7d"

section DictLemmas

variable {α : Type}

theorem hasKey_nil (k : String) : hasKey ([] : List (String × α)) k = false := rfl

theorem hasKey_append (a b : List (String × α)) (k : String) :
    hasKey (a ++ b) k = (hasKey a k || hasKey b k) := by
  simp [hasKey, List.any_append]

theorem hasKey_cons (p : String × α) (t : List (String × α)) (k : String) :
    hasKey (p :: t) k = ((p.1 == k) || hasKey t k) := by
  simp [hasKey]

theorem hasKey_iff_exists (r : List (String × α)) (k : String) :
    hasKey r k = true ↔ ∃ v, (k, v) ∈ r := by
  induction r with
  | nil => simp [hasKey]
  | cons p t ih =>
      cases p with
      | mk k' v' =>
        simp only [hasKey_cons]
        constructor
        · intro h
          rcases Bool.or_eq_true_iff.mp h with h | h
          · exact ⟨v', by simp_all [beq_iff_eq]⟩
          · rcases ih.mp h with ⟨v, hv⟩
            exact ⟨v, List.mem_cons_of_mem _ hv⟩
        · rintro ⟨v, hv⟩
          rcases List.mem_cons.mp hv with h | h
          · cases h; simp
          · simp [ih.mpr ⟨v, h⟩]

theorem pyGetOpt_nil (k : String) : pyGetOpt ([] : List (String × α)) k = none := rfl

theorem pyGetOpt_cons (k' : String) (v' : α) (t : List (String × α)) (k : String) :
    pyGetOpt ((k', v') :: t) k = if k' == k then some v' else pyGetOpt t k := by
  by_cases h : k' == k <;> simp [pyGetOpt, List.find?_cons, h]

theorem pyGetOpt_append (a b : List (String × α)) (k : String) :
    pyGetOpt (a ++ b) k = ((pyGetOpt a k).or (pyGetOpt b k)) := by
  induction a with
  | nil => simp [pyGetOpt]
  | cons p t ih =>
      cases p with
      | mk k' v' =>
        by_cases h : k' == k <;>
          simp [pyGetOpt_cons, h, List.cons_append, ih]

theorem pyGetOpt_isSome_of_hasKey {r : List (String × α)} {k : String}
    (h : hasKey r k = true) : (pyGetOpt r k).isSome := by
  induction r with
  | nil => simp [hasKey] at h
  | cons p t ih =>
      cases p with
      | mk k' v' =>
        rw [hasKey_cons] at h
        by_cases hk : k' == k
        · simp [pyGetOpt_cons, hk]
        · simp only [hk, Bool.false_or] at h
          simp [pyGetOpt_cons, hk, ih h]

theorem hasKey_of_pyGetOpt {r : List (String × α)} {k : String} {v : α}
    (h : pyGetOpt r k = some v) : hasKey r k = true := by
  induction r with
  | nil => simp [pyGetOpt] at h
  | cons p t ih =>
      cases p with
      | mk k' v' =>
        rw [pyGetOpt_cons] at h
        rw [hasKey_cons]
        by_cases hk : k' == k
        · simp [hk]
        · simp only [hk, if_false] at h
          simp [hk, ih h]

theorem pyGetOpt_eq_none_of_not_hasKey {r : List (String × α)} {k : String}
    (h : hasKey r k = false) : pyGetOpt r k = none := by
  cases hv : pyGetOpt r k with
  | none => rfl
  | some v => rw [hasKey_of_pyGetOpt hv] at h; cases h

theorem pyGetOpt_assocSet_self (r : List (String × α)) (k : String) (v : α) :
    pyGetOpt (assocSet r k v) k = some v := by
  induction r with
  | nil => simp [assocSet, pyGetOpt_cons]
  | cons p t ih =>
      cases p with
      | mk k' v' =>
        by_cases h : k' == k <;>
          simp [assocSet, h, pyGetOpt_cons, ih]

theorem pyGetOpt_assocSet_ne (r : List (String × α)) {k k' : String} (v : α)
    (h : k' ≠ k) : pyGetOpt (assocSet r k v) k' = pyGetOpt r k' := by
  induction r with
  | nil =>
      simp [assocSet, pyGetOpt_cons, pyGetOpt_nil]
      intro hkk
      exact absurd hkk.symm h
  | cons p t ih =>
      cases p with
      | mk k0 v0 =>
        by_cases hk : k0 == k
        · have hk' : k0 = k := by simpa [beq_iff_eq] using hk
          subst hk'
          have : ¬ (k0 == k') := by
            simp [beq_iff_eq]
            intro hc
            exact h hc.symm
          simp [assocSet, pyGetOpt_cons, this]
        · simp [assocSet, hk, pyGetOpt_cons, ih]

theorem assocSet_eq_self {r : List (String × α)} {k : String} {v : α}
    (h : pyGetOpt r k = some v) : assocSet r k v = r := by
  induction r with
  | nil => simp [pyGetOpt] at h
  | cons p t ih =>
      cases p with
      | mk k' v' =>
        rw [pyGetOpt_cons] at h
        by_cases hk : k' == k
        · have hkk : k' = k := by simpa [beq_iff_eq] using hk
          simp only [hk, if_true] at h
          cases h
          simp [assocSet, hk, hkk]
        · simp only [hk, if_false] at h
          simp [assocSet, hk, ih h]

theorem hasKey_assocSet (r : List (String × α)) (k k' : String) (v : α) :
    hasKey (assocSet r k v) k' = ((k == k') || hasKey r k') := by
  induction r with
  | nil => simp [assocSet, hasKey_cons, hasKey_nil]
  | cons p t ih =>
      cases p with
      | mk k0 v0 =>
        by_cases hk : k0 == k
        · have hkk : k0 = k := by simpa [beq_iff_eq] using hk
          subst hkk
          simp [assocSet, hasKey_cons]
        · rw [show assocSet ((k0, v0) :: t) k v = (k0, v0) :: assocSet t k v from by
              simp [assocSet, hk]]
          rw [hasKey_cons, ih, hasKey_cons]
          cases h0 : (k0 == k') <;> cases h1 : (k == k') <;>
            cases h2 : hasKey t k' <;> simp

end DictLemmas

theorem pyUpdate_nil (r : PyDict) : pyUpdate r [] = r := rfl

theorem pyUpdate_cons (r : PyDict) (k : String) (v : PyVal) (p : PyDict) :
    pyUpdate r ((k, v) :: p) = pyUpdate (pySet r k v) p := rfl

theorem hasKey_pyUpdate (r p : PyDict) (k : String) :
    hasKey (pyUpdate r p) k = (hasKey r k || hasKey p k) := by
  induction p generalizing r with
  | nil => simp [pyUpdate, hasKey]
  | cons kv t ih =>
      cases kv with
      | mk k0 v0 =>
        rw [pyUpdate_cons, ih, hasKey_cons, pySet, hasKey_assocSet]
        cases h0 : (k0 == k) <;> cases h1 : hasKey r k <;> simp

theorem pyGetOpt_pyUpdate_not_hasKey {p : PyDict} {k : String}
    (h : hasKey p k = false) (r : PyDict) :
    pyGetOpt (pyUpdate r p) k = pyGetOpt r k := by
  induction p generalizing r with
  | nil => rfl
  | cons kv t ih =>
      cases kv with
      | mk k0 v0 =>
        rw [hasKey_cons] at h
        have h0 : ¬ (k0 == k) := by
          intro hc; rw [hc] at h; simp at h
        have ht : hasKey t k = false := by
          cases hh : hasKey t k
          · rfl
          · rw [hh] at h; simp at h
        have hne : k ≠ k0 := by
          intro hc; exact h0 (by simp [beq_iff_eq, hc])
        rw [pyUpdate_cons, ih ht, pySet, pyGetOpt_assocSet_ne _ _ hne]

/-- Keys of an association list. -/
def keysOf {α : Type} (r : List (String × α)) : List String := r.map Prod.fst

theorem hasKey_eq_keys_mem {α : Type} (r : List (String × α)) (k : String) :
    hasKey r k = true ↔ k ∈ keysOf r := by
  rw [hasKey_iff_exists]
  constructor
  · rintro ⟨v, hv⟩
    exact List.mem_map.mpr ⟨(k, v), hv, rfl⟩
  · intro h
    rcases List.mem_map.mp h with ⟨⟨k', v⟩, hm, hk⟩
    cases hk
    exact ⟨v, hm⟩

theorem pyGetOpt_pyUpdate_mem {p : PyDict} {k : String} {v : PyVal}
    (hnd : (keysOf p).Nodup) (hm : (k, v) ∈ p) (r : PyDict) :
    pyGetOpt (pyUpdate r p) k = some v := by
  induction p generalizing r with
  | nil => cases hm
  | cons kv t ih =>
      cases kv with
      | mk k0 v0 =>
        rw [keysOf, List.map_cons, List.nodup_cons] at hnd
        rcases List.mem_cons.mp hm with h | h
        · cases h
          have ht : hasKey t k = false := by
            cases hh : hasKey t k
            · rfl
            · exact absurd ((hasKey_eq_keys_mem t k).mp hh) hnd.1
          rw [pyUpdate_cons, pyGetOpt_pyUpdate_not_hasKey ht, pySet,
            pyGetOpt_assocSet_self]
        · exact ih hnd.2 h _

theorem pyUpdate_eq_self {r p : PyDict}
    (h : ∀ kv ∈ p, pyGetOpt r kv.1 = some kv.2) : pyUpdate r p = r := by
  induction p with
  | nil => rfl
  | cons kv t ih =>
      cases kv with
      | mk k0 v0 =>
        rw [pyUpdate_cons, pySet, assocSet_eq_self (h (k0, v0) (by simp))]
        exact ih (fun kv hkv => h kv (List.mem_cons_of_mem _ hkv))

theorem hasKey_pySetdefault (r : PyDict) (k k' : String) (v : PyVal) :
    hasKey (pySetdefault r k v) k' = (hasKey r k' || ((k == k') && !hasKey r k)) := by
  unfold pySetdefault
  by_cases h : hasKey r k
  · simp [h]
  · rw [Bool.not_eq_true] at h
    rw [if_neg (by simp [h]), hasKey_append, hasKey_cons, hasKey_nil, h]
    cases h1 : hasKey r k' <;> cases h2 : (k == k') <;> simp

theorem pyGetOpt_pySetdefault_ne (r : PyDict) {k k' : String} (v : PyVal)
    (h : k' ≠ k) : pyGetOpt (pySetdefault r k v) k' = pyGetOpt r k' := by
  unfold pySetdefault
  by_cases hk : hasKey r k
  · simp [hk]
  · rw [if_neg (by simp [hk]), pyGetOpt_append]
    have : pyGetOpt [(k, v)] k' = none := by
      rw [pyGetOpt_cons]
      have : ¬ (k == k') := by simp [beq_iff_eq]; intro hc; exact h hc.symm
      simp [this, pyGetOpt_nil]
    rw [this]
    cases pyGetOpt r k' <;> rfl

theorem pyGetOpt_pySet_ne (r : PyDict) {k k' : String} (v : PyVal)
    (h : k' ≠ k) : pyGetOpt (pySet r k v) k' = pyGetOpt r k' :=
  pyGetOpt_assocSet_ne r v h

/-! ### Character classes and string helpers

`immowelt.py` matches its regular expressions against Python 3 `str`
objects, where `\s` is Unicode whitespace. The pages this source targets
only ever contain the ASCII whitespace characters plus the non-breaking
space U+00A0 that the site uses as a thousands separator, so the model
fixes `\s` (and `str.strip`) to exactly that character set. -/

/-- The whitespace characters recognised by Python's `\s` and `str.strip()`
as modelled here: space, tab, newline, carriage return, vertical tab,
form feed and the non-breaking space U+00A0. -/
def isPySpace (c : Char) : Bool :=
  c == ' ' || c == '\t' || c == '\n' || c == '\r' ||
  c == '\x0b' || c == '\x0c' || c == '\xa0'

/-- Python `str.strip()`: remove whitespace from both ends. -/
def pyStrip (s : String) : String :=
  String.mk (((s.toList.dropWhile isPySpace).reverse.dropWhile isPySpace).reverse)

/-- Digits of a decimal literal folded to a natural number
(Python `int(...)` on a non-empty all-digit string). -/
def natOfDigits (cs : List Char) : Nat :=
  cs.foldl (fun n c => n * 10 + (c.toNat - '0'.toNat)) 0

/-- `ImmoWeltSource._parse_int`: drop the separators U+00A0, space, `.` and
`,`, then strip every remaining non-digit (`re.sub(r"\D", "", ...)`), and
read the digit string as an integer; `None` when no digit is left. -/
def parse_int (value : String) : Option Int :=
  let cleaned := value.toList.filter
    (fun c => !(c == '\xa0' || c == ' ' || c == '.' || c == ','))
  let digits := cleaned.filter Char.isDigit
  if digits.isEmpty then none else some (natOfDigits digits : Int)

/-- Python `float(...)` on the strings `_parse_float` builds (digits and at
most one decimal point): the exact decimal value as a rational, `none` on
anything `float` would reject. Exact rationals stand in for binary floats;
no property proved here depends on rounding. -/
def floatLit (cs : List Char) : Option ℚ :=
  match cs.splitOn '.' with
  | [ip] =>
      if !ip.isEmpty && ip.all Char.isDigit then some (natOfDigits ip : ℚ) else none
  | [ip, fp] =>
      if (!ip.isEmpty || !fp.isEmpty) && ip.all Char.isDigit && fp.all Char.isDigit then
        some ((natOfDigits ip : ℚ) + (natOfDigits fp : ℚ) / ((10 : ℚ) ^ fp.length))
      else none
  | _ => none

/-- `ImmoWeltSource._parse_float`: remove U+00A0 and spaces, drop `.`
thousands separators, turn the `,` decimal comma into a point, and parse
as a float (German locale convention). -/
def parse_float (value : String) : Option ℚ :=
  let cleaned := value.toList.filter (fun c => !(c == '\xa0' || c == ' '))
  let cleaned := cleaned.filter (fun c => !(c == '.'))
  let cleaned := cleaned.map (fun c => if c == ',' then '.' else c)
  floatLit cleaned

/-! ### The regular expressions of `immowelt.py`

Each `re.search` call is implemented as a scanner over the character list,
with the leftmost-match semantics of `re.search`: the scanner walks the
start positions from the left and at each position runs the pattern with
greedy repetition. For each concrete pattern the greedy backtracking
collapses to a single deterministic check, noted at the definition. -/

/-- Character class `[\d\.\s\xa0]` of `_extract_euro_amount`. -/
def isEuroClass (c : Char) : Bool := c.isDigit || c == '.' || isPySpace c

/-- `re.search(r"([\d\.\s\xa0]+)\s*€", text)` of `_extract_euro_amount`.
Because the class contains every whitespace character, the `\s*` between
the group and the Euro sign can only match the empty string after a
maximal class run, so a start position matches exactly when the maximal
class run beginning there is immediately followed by `€`. Returns
`(group(0), group(1))`. -/
def euroScan : List Char → Option (String × String)
  | [] => none
  | c :: rest =>
      if isEuroClass c then
        match (c :: rest).dropWhile isEuroClass with
        | '€' :: _ =>
            some (String.mk ((c :: rest).takeWhile isEuroClass ++ ['€']),
              String.mk ((c :: rest).takeWhile isEuroClass))
        | _ => euroScan rest
      else euroScan rest

/-- `ImmoWeltSource._extract_euro_amount`: `(raw, amount)` where `raw` is
the stripped full match and `amount` is `_parse_int` of the group;
`(None, None)` when the pattern does not match. -/
def extract_euro_amount (text : String) : Option String × Option Int :=
  match euroScan text.toList with
  | none => (none, none)
  | some (g0, g1) => (some (pyStrip g0), parse_int g1)

/-- Character class `[\d\.,]` of the decimal patterns. -/
def isNumClass (c : Char) : Bool := c.isDigit || c == '.' || c == ','

/-- `re.search(r"([\d\.,]+)\s*LIT", text)` for a literal `LIT` that starts
with a non-whitespace, non-class character. The class has no whitespace,
so after the greedy class run `\s*` consumes exactly the following
whitespace run and the literal must start right after it. Returns the
group. -/
def numLitScan (lit : List Char) : List Char → Option String
  | [] => none
  | c :: rest =>
      if isNumClass c then
        if lit.isPrefixOf (((c :: rest).dropWhile isNumClass).dropWhile isPySpace) then
          some (String.mk ((c :: rest).takeWhile isNumClass))
        else numLitScan lit rest
      else numLitScan lit rest

/-- `ImmoWeltSource._parse_price_per_sqm`: `([\d\.,]+)\s*€/m²`. -/
def parse_price_per_sqm (text : String) : Option ℚ :=
  match numLitScan ['€', '/', 'm', '²'] text.toList with
  | none => none
  | some g => parse_float g

/-- `ImmoWeltSource._parse_rooms`: `([\d\.,]+)\s*Zimmer`. -/
def parse_rooms (text : String) : Option ℚ :=
  match numLitScan ['Z', 'i', 'm', 'm', 'e', 'r'] text.toList with
  | none => none
  | some g => parse_float g

/-- `ImmoWeltSource._parse_area`: `([\d\.,]+)\s*m²`. -/
def parse_area (text : String) : Option ℚ :=
  match numLitScan ['m', '²'] text.toList with
  | none => none
  | some g => parse_float g

/-- One anchored attempt of `^(.*?)\s*\((\d{4,6})\)` at a given split
point: the rest of the text must begin with whitespace, then `(`, then a
digit run whose maximal length is between 4 and 6, then `)`. (A longer
digit run cannot match: the greedy `\d{4,6}` would leave a digit where
`)` is required.) Returns the captured postal code. -/
def parenCheck (rest : List Char) : Option String :=
  match rest.dropWhile isPySpace with
  | '(' :: t =>
      let run := t.takeWhile Char.isDigit
      if 4 ≤ run.length && run.length ≤ 6 then
        match t.dropWhile Char.isDigit with
        | ')' :: _ => some (String.mk run)
        | _ => none
      else none
  | _ => none

/-- The lazy group `(.*?)` of `_parse_location`: the split point grows
from the left until `parenCheck` succeeds. Returns (group 1 characters,
postal code). -/
def locSplit : List Char → Option (List Char × String)
  | [] => none
  | c :: t =>
      match parenCheck (c :: t) with
      | some p => some ([], p)
      | none => (locSplit t).map (fun gp => (c :: gp.1, gp.2))

/-- `ImmoWeltSource._parse_location`: locality and optional postal code;
with no parenthesised code the whole text is the locality. -/
def parse_location (text : String) : String × Option String :=
  match locSplit text.toList with
  | some (g, p) => (pyStrip (String.mk g), some p)
  | none => (text, none)

/-- `re.search(rf"LABEL\s*:\s*([^\s]+)", text)` of `_parse_labeled_value`:
the label literally, optional whitespace, a colon, optional whitespace,
then a non-empty run of non-whitespace characters (greedy, maximal). -/
def labelScan (lab : List Char) : List Char → Option String
  | [] => none
  | c :: rest =>
      if lab.isPrefixOf (c :: rest) then
        match ((c :: rest).drop lab.length).dropWhile isPySpace with
        | ':' :: a3 =>
            let tok := (a3.dropWhile isPySpace).takeWhile (fun ch => !isPySpace ch)
            if tok.isEmpty then labelScan lab rest else some (String.mk tok)
        | _ => labelScan lab rest
      else labelScan lab rest

/-- `ImmoWeltSource._parse_labeled_value` (the group is a run of
non-whitespace characters, so its `strip()` is the identity; applied
anyway for faithfulness). -/
def parse_labeled_value (text : String) (label : String) : Option String :=
  (labelScan label.toList text.toList).map pyStrip

/-- Case-insensitive literal prefix test (`re.IGNORECASE` on an
ASCII-lowercase literal). -/
def ciPrefix (lit : List Char) (cs : List Char) : Bool :=
  ((cs.take lit.length).map Char.toLower) == lit

/-- `re.search(rf"/LIT/([^/?#]+)", url, re.IGNORECASE)`: at the leftmost
case-insensitive occurrence of `/LIT/` that is followed by at least one
character outside `/?#`, capture the maximal such run; occurrences
followed immediately by `/`, `?`, `#` or the end are skipped, as
`re.search` advances the start position past them. -/
def idScan (lit : List Char) : List Char → Option String
  | [] => none
  | c :: rest =>
      if ciPrefix lit (c :: rest) then
        let cap := ((c :: rest).drop lit.length).takeWhile
          (fun ch => !(ch == '/' || ch == '?' || ch == '#'))
        if cap.isEmpty then idScan lit rest else some (String.mk cap)
      else idScan lit rest

/-- `ImmoWeltSource._extract_listing_id`: the path segment after
`/expose/`, else after `/immobilien/`, else the whole URL. -/
def extract_listing_id (url : String) : String :=
  match idScan "/expose/".toList url.toList with
  | some s => s
  | none =>
      match idScan "/immobilien/".toList url.toList with
      | some s => s
      | none => url

/-! ### The structured-data (JSON-LD) layer -/

/-- `ImmoWeltSource._extract_json_ld`: each `<script type="application/ld+json">`
block is given as the outcome of `json.loads` on its text — `none` for a
block with no text or unparseable JSON (both are skipped with `continue`),
`some v` for a parsed payload. List payloads are flattened into the
candidate list, dict payloads appended, other payloads skipped; the first
candidate dict containing `offers` or `address` is selected, else the
first candidate if it is a dict. -/
def extract_json_ld (scripts : List (Option PyVal)) : Option PyDict :=
  let candidates := scripts.foldl
    (fun acc s =>
      match s with
      | some (PyVal.list xs) => acc ++ xs
      | some (PyVal.dict fs) => acc ++ [PyVal.dict fs]
      | _ => acc) []
  if candidates.isEmpty then none
  else
    match candidates.find? (fun c =>
        match c with
        | PyVal.dict fs => hasKey fs "offers" || hasKey fs "address"
        | _ => false) with
    | some (PyVal.dict fs) => some fs
    | _ =>
        match candidates.head? with
        | some (PyVal.dict fs) => some fs
        | _ => none

/-- `ImmoWeltSource._parse_json_ld`. The Python builds the partial record
by successive assignments whose keys are pairwise distinct literals, so
the dict it returns equals this ordered concatenation of the conditional
segments. -/
def parse_json_ld (data : PyDict) : PyDict :=
  (if hasKey data "name" then [("title", pyGetD data "name")] else [])
  ++ (if hasKey data "description" then [("description", pyGetD data "description")] else [])
  ++ (match pyGetD data "offers" with
      | PyVal.dict offers =>
          [("price", pyGetD offers "price"),
           ("price_currency", pyGetD offers "priceCurrency"),
           ("availability", pyGetD offers "availability")]
      | _ => [])
  ++ (match pyGetD data "address" with
      | PyVal.dict address =>
          [("street", pyGetD address "streetAddress"),
           ("locality", pyGetD address "addressLocality"),
           ("region", pyGetD address "addressRegion"),
           ("postal_code", pyGetD address "postalCode"),
           ("country", pyGetD address "addressCountry")]
      | _ => [])
  ++ (match pyGetD data "geo" with
      | PyVal.dict geo =>
          [("latitude", pyGetD geo "latitude"),
           ("longitude", pyGetD geo "longitude")]
      | _ => [])
  ++ (if hasKey data "numberOfRooms" then [("rooms", pyGetD data "numberOfRooms")] else [])
  ++ (match pyGetD data "floorSize" with
      | PyVal.dict fs =>
          [("area", pyGetD fs "value"), ("area_unit", pyGetD fs "unitText")]
      | _ => [])

/-! ### The DOM-marker layer

Both `_parse_dom_bs4` and `_parse_dom_justhtml` consume their HTML engine
only through "find the unique node with this `data-testid` and give me its
text" (`get_text(" ", strip=True)` resp. `_jh_text`). That query is the
oracle `sel : String → Option String`; `none` is an absent node. Each
marker block of the Python methods assigns pairwise distinct literal keys
into `parsed`, and the blocks' key sets are pairwise disjoint (the single
`setdefault` — on `location_raw` — therefore also always inserts), so
`parsed` equals the ordered concatenation of the per-block dicts. -/

/-- Marker block for `data-testid="cdp-price"` (lines 129-139 resp. 199-209). -/
def price_block : Option String → PyDict → PyDict
  | none, _ => []
  | some text, record =>
      if hasKey record "price" then []
      else
        (match (extract_euro_amount text).2 with
         | some a => [("price", PyVal.int a)]
         | none => [])
        ++ (match (extract_euro_amount text).1 with
            | some r => if r ≠ "" then [("price_raw", PyVal.str r)] else []
            | none => [])
        ++ (match parse_price_per_sqm text with
            | some q => [("price_per_sqm", PyVal.float q)]
            | none => [])

/-- Marker block for `data-testid="cdp-hardfacts-keyfacts"` (lines 141-152). -/
def hardfacts_block : Option String → PyDict → PyDict
  | none, _ => []
  | some text, record =>
      (if hasKey record "rooms" then []
       else
         match parse_rooms text with
         | some q => [("rooms", PyVal.float q)]
         | none => [])
      ++ (if hasKey record "area" then []
          else
            match parse_area text with
            | some q => [("area", PyVal.float q), ("area_unit", PyVal.str "m2")]
            | none => [])

/-- Marker block for `data-testid="cdp-location-address"` (lines 154-163). -/
def location_block : Option String → PyDict → PyDict
  | none, _ => []
  | some text, record =>
      (if hasKey record "locality" = false || hasKey record "postal_code" = false then
        (if (parse_location text).1 ≠ "" && !hasKey record "locality" then
          [("locality", PyVal.str (parse_location text).1)]
         else [])
        ++ (match (parse_location text).2 with
            | some p =>
                if p ≠ "" && !hasKey record "postal_code" then
                  [("postal_code", PyVal.str p)]
                else []
            | none => [])
       else [])
      ++ [("location_raw", PyVal.str text)]

/-- Marker block for the provider link test id (lines 165-169). -/
def provider_block : Option String → PyDict → PyDict
  | none, _ => []
  | some text, record =>
      if hasKey record "provider" then [] else [("provider", PyVal.str text)]

/-- The string Python computes as `str(record.get("description") or "")`. -/
def descCurrent (record : PyDict) : String :=
  if pyTruthy (pyGetD record "description") then pyStr (pyGetD record "description") else ""

/-- Marker block for `data-testid="cdp-main-description-expandable-text"`
(lines 171-177): a non-empty text replaces the current description when
the current one is falsy or strictly shorter. -/
def description_block : Option String → PyDict → PyDict
  | none, _ => []
  | some text, record =>
      if text ≠ "" then
        if descCurrent record = "" || text.length > (descCurrent record).length then
          [("description", PyVal.str text)]
        else []
      else []

/-- Marker block for `data-testid="cdp-main-description-title"` (179-181). -/
def description_title_block : Option String → PyDict → PyDict
  | none, _ => []
  | some text, record =>
      if hasKey record "description_title" then []
      else [("description_title", PyVal.str text)]

/-- Marker block for `data-testid="cdp-classified-keys"` (lines 183-191). -/
def classified_block : Option String → PyDict → PyDict
  | none, _ => []
  | some text, record =>
      (match parse_labeled_value text "Online-ID" with
       | some v =>
           if v ≠ "" && !hasKey record "online_id" then [("online_id", PyVal.str v)]
           else []
       | none => [])
      ++ (match parse_labeled_value text "Referenznummer" with
          | some v =>
              if v ≠ "" && !hasKey record "reference_number" then
                [("reference_number", PyVal.str v)]
              else []
          | none => [])

/-- `ImmoWeltSource._parse_dom_bs4`, as the ordered concatenation of its
marker blocks over the BeautifulSoup text oracle. -/
def parse_dom_bs4 (sel : String → Option String) (record : PyDict) : PyDict :=
  price_block (sel "cdp-price") record
  ++ hardfacts_block (sel "cdp-hardfacts-keyfacts") record
  ++ location_block (sel "cdp-location-address") record
  ++ provider_block
      (sel "aviv.CDP.Contacting.ProviderSection.IntermediaryCard.Title.Link") record
  ++ description_block (sel "cdp-main-description-expandable-text") record
  ++ description_title_block (sel "cdp-main-description-title") record
  ++ classified_block (sel "cdp-classified-keys") record

/-- `ImmoWeltSource._parse_dom_justhtml`: the same marker blocks, reading
node texts through the JustHTML query engine's oracle instead. -/
def parse_dom_justhtml (sel : String → Option String) (record : PyDict) : PyDict :=
  price_block (sel "cdp-price") record
  ++ hardfacts_block (sel "cdp-hardfacts-keyfacts") record
  ++ location_block (sel "cdp-location-address") record
  ++ provider_block
      (sel "aviv.CDP.Contacting.ProviderSection.IntermediaryCard.Title.Link") record
  ++ description_block (sel "cdp-main-description-expandable-text") record
  ++ description_title_block (sel "cdp-main-description-title") record
  ++ classified_block (sel "cdp-classified-keys") record

/-! ### One listing page and `parse_listing` -/

/-- Everything `parse_listing` reads from one listing page's HTML, at the
exact boundaries where the Python consumes its external libraries:
the `json.loads` outcome of each JSON-LD script block, the two engines'
text for a `data-testid` node, the availability of the optional JustHTML
engine (`JustHTML is not None`), the `content` attribute of a
`<meta property=...>` tag, and the text of the `<title>` element. -/
structure Page where
  scripts : List (Option PyVal)
  bs4Sel : String → Option String
  jhAvailable : Bool
  jhSel : String → Option String
  metaContent : String → Option String
  pageTitle : Option String

/-- `ImmoWeltSource._extract_meta_content`: `none` when the tag is absent
or has no `content` attribute (both make `meta` return `none`) or the
attribute is the empty string; otherwise the stripped content. -/
def extract_meta_content (meta : String → Option String) (value : String) :
    Option String :=
  match meta value with
  | none => none
  | some content => if content ≠ "" then some (pyStrip content) else none

/-- The record `parse_listing` creates before any extraction layer runs. -/
def baseRecord (url : String) : PyDict :=
  [("source", PyVal.str "immowelt"),
   ("url", PyVal.str url),
   ("id", PyVal.str (extract_listing_id url))]

/-- `parse_listing` lines 50-52: the record after the JSON-LD layer
(`record.update(self._parse_json_ld(json_ld))` when a block was selected). -/
def recordAfterJsonLd (page : Page) (url : String) : PyDict :=
  match extract_json_ld page.scripts with
  | some d => pyUpdate (baseRecord url) (parse_json_ld d)
  | none => baseRecord url

/-- `parse_listing` line 53: `record.update(self._parse_dom_bs4(soup, record))`. -/
def recordAfterBs4 (page : Page) (url : String) : PyDict :=
  pyUpdate (recordAfterJsonLd page url)
    (parse_dom_bs4 page.bs4Sel (recordAfterJsonLd page url))

/-- `parse_listing` lines 54-55: the optional JustHTML pass, run only when
the engine imported (`JustHTML is not None`). -/
def recordAfterDom (page : Page) (url : String) : PyDict :=
  if page.jhAvailable then
    pyUpdate (recordAfterBs4 page url)
      (parse_dom_justhtml page.jhSel (recordAfterBs4 page url))
  else recordAfterBs4 page url

/-- `parse_listing` lines 56-58: a non-empty `og:title` is assigned
unconditionally (`record["title"] = title`). -/
def recordAfterOgTitle (page : Page) (url : String) : PyDict :=
  match extract_meta_content page.metaContent "og:title" with
  | some t =>
      if t ≠ "" then pySet (recordAfterDom page url) "title" (PyVal.str t)
      else recordAfterDom page url
  | none => recordAfterDom page url

/-- `parse_listing` lines 59-61: `record.setdefault("title", page_title.text.strip())`
when the `<title>` element exists and has non-empty text. -/
def recordAfterPageTitle (page : Page) (url : String) : PyDict :=
  match page.pageTitle with
  | some t =>
      if t ≠ "" then
        pySetdefault (recordAfterOgTitle page url) "title" (PyVal.str (pyStrip t))
      else recordAfterOgTitle page url
  | none => recordAfterOgTitle page url

/-- `ImmoWeltSource.parse_listing` (lines 43-65): base record, JSON-LD
layer, BeautifulSoup DOM-marker layer, optional JustHTML DOM-marker
layer, then the meta-tag / page-title layer, ending with the
`og:description` `setdefault` of lines 62-64. -/
def parse_listing (page : Page) (url : String) : PyDict :=
  match extract_meta_content page.metaContent "og:description" with
  | some t =>
      if t ≠ "" then
        pySetdefault (recordAfterPageTitle page url) "description" (PyVal.str t)
      else recordAfterPageTitle page url
  | none => recordAfterPageTitle page url

/-- A page identical to `page` except that the JustHTML engine is
unavailable (`JustHTML is None`, its module having failed to load). -/
def Page.withoutJH (page : Page) : Page :=
  Page.mk page.scripts page.bs4Sel false page.jhSel page.metaContent page.pageTitle

/-- `_parse_dom_justhtml` runs the same marker blocks as `_parse_dom_bs4`;
the two methods differ only in which engine oracle supplies the text. -/
theorem parse_dom_justhtml_eq (sel : String → Option String) (record : PyDict) :
    parse_dom_justhtml sel record = parse_dom_bs4 sel record := rfl

/-! ### The HTTP fetcher (`utils/scrape_pipeline.py`, `fetch_html`) -/

/-- One attempt of the HTTP transport: `session.get` either returns a
response (status code and body text) or raises a
`requests.RequestException`, carried here as its `str(...)` form. The
transport is an oracle indexed by the attempt number. -/
inductive FetchAttempt where
  | success : Nat → String → FetchAttempt
  | failure : String → FetchAttempt

/-- Observable outcome of `fetch_html`: the returned `(status, text)` pair
plus the number of `session.get` attempts made and the number of backoff
`time.sleep` calls performed. The backoff durations
`0.8 * 2**attempt + uniform(0.2, 0.6)` are irrelevant to every stated
property and are not tracked. -/
structure FetchTrace where
  result : Nat × String
  attempts : Nat
  sleeps : Nat

/-- The retry loop of `fetch_html`, lines 43-57: `remaining` counts the
attempts still allowed after the current one (`retries - attempt`), so the
retry guard `attempt < retries` is `remaining ≠ 0`. The final
`return 0, str(last_exc) if last_exc else ""` is reachable only through an
exception on the last attempt, so the sentinel carries that exception's
string. -/
def fetchGo (transport : Nat → FetchAttempt) :
    Nat → Nat → Nat → FetchTrace
  | 0, attempt, sleeps =>
      match transport attempt with
      | FetchAttempt.success status body => ⟨(status, body), attempt + 1, sleeps⟩
      | FetchAttempt.failure err => ⟨(0, err), attempt + 1, sleeps⟩
  | Nat.succ rem, attempt, sleeps =>
      match transport attempt with
      | FetchAttempt.success status body =>
          if status = 403 ∨ status = 429 ∨ status = 503 then
            fetchGo transport rem (attempt + 1) (sleeps + 1)
          else ⟨(status, body), attempt + 1, sleeps⟩
      | FetchAttempt.failure _ => fetchGo transport rem (attempt + 1) (sleeps + 1)

/-- `fetch_html(session, url, timeout_s, retries, cookie)`: up to
`retries + 1` transport attempts. Headers, timeout and cookie only shape
the oracle's behaviour and are absorbed into it. -/
def fetch_html (transport : Nat → FetchAttempt) (retries : Nat) : FetchTrace :=
  fetchGo transport retries 0 0

/-! ### Deduplication and the URL collector -/

/-- The loop of `dedupe_keep_order`, lines 61-69, with the `seen` set
modelled as the list of values added to it (only membership is consumed). -/
def dedupeGo (seen deduped : List String) : List String → List String
  | [] => deduped
  | v :: rest =>
      if v ∈ seen then dedupeGo seen deduped rest
      else dedupeGo (v :: seen) (deduped ++ [v]) rest

/-- `dedupe_keep_order(values)`. -/
def dedupe_keep_order (values : List String) : List String :=
  dedupeGo [] [] values

/-- Specification-side description of "no duplicates, first-occurrence
order" (§8 of the spec): keep each element's first occurrence, erase the
later ones. `dedupe_keep_order` is proved to refine this. -/
def firstOccurrences : List String → List String
  | [] => []
  | a :: t => a :: firstOccurrences (t.filter (fun x => x ≠ a))
termination_by l => l.length
decreasing_by
  simp only [List.length_cons]
  exact Nat.lt_succ_of_le (List.length_filter_le _ _)

/-- What `collect_listing_urls` observes about one search page: the status
of its `fetch_html` call and, when it was read, the URL list that
`source.extract_listing_urls(html, url)` produced for its body. -/
structure SearchPage where
  status : Nat
  urls : List String

/-- The loop of `collect_listing_urls`, lines 80-88: skip non-200 pages
(`continue` — before the politeness sleep), extend the accumulator,
sleep when `delay_s` is truthy, and deduplicate at the end. The result
pairs the returned URL list with the number of `time.sleep(delay_s)`
calls performed. -/
def collectGo (delay : ℚ) : List SearchPage → List String → Nat →
    List String × Nat
  | [], acc, sleeps => (dedupe_keep_order acc, sleeps)
  | p :: rest, acc, sleeps =>
      if p.status ≠ 200 then collectGo delay rest acc sleeps
      else
        collectGo delay rest (acc ++ p.urls)
          (if delay ≠ 0 then sleeps + 1 else sleeps)

/-- `collect_listing_urls(source, search_urls, session, retries, cookie, delay_s)`
over the per-page fetch/extraction outcomes, in page order. -/
def collect_listing_urls (delay : ℚ) (pages : List SearchPage) :
    List String × Nat :=
  collectGo delay pages [] 0

/-! ### The concurrency orchestrator (`scrape_listings`) -/

/-- What `_scrape` observes for one listing URL: the status of its
`fetch_html` call and the page content that `parse_listing` reads. -/
structure ListingFetch where
  status : Nat
  page : Page

/-- The key `_scrape` returns: `str(record.get("id") or url)`. -/
def scrapeKey (record : PyDict) (url : String) : String :=
  match pyGetOpt record "id" with
  | some v => if pyTruthy v then pyStr v else pyStr (PyVal.str url)
  | none => pyStr (PyVal.str url)

/-- The body of `_scrape` (lines 105-115) for one URL: fetch, parse,
attach `status_code`, and derive the record key. The per-worker
`time.sleep(delay_s)` and the debug-HTML dump do not affect the record. -/
def scrapeOne (fetch : String → ListingFetch) (url : String) :
    String × PyDict :=
  let lf := fetch url
  let record := parse_listing lf.page url
  let record := pySet record "status_code" (PyVal.int lf.status)
  (scrapeKey record url, record)

/-- `scrape_listings(source, listing_urls, session, max_workers, ...)`:
`ThreadPoolExecutor.map` yields `(key, record)` pairs in the order of the
input URLs regardless of worker interleaving, and the `results` dict is
filled with them sequentially in the main thread; `_scrape` itself is pure
in the record it produces, so the worker count `maxWorkers` cannot change
the resulting mapping and appears only as an unused parameter. -/
def scrape_listings (fetch : String → ListingFetch) (urls : List String)
    (maxWorkers : Nat) : List (String × PyDict) :=
  let _ := maxWorkers
  urls.foldl (fun results url =>
    assocSet results (scrapeOne fetch url).1 (scrapeOne fetch url).2) []

/-! ### Helper lemmas about the fetcher -/

theorem fetchGo_all_failures (m : Nat → String) :
    ∀ (rem att slp : Nat),
      fetchGo (fun n => FetchAttempt.failure (m n)) rem att slp =
        ⟨(0, m (att + rem)), att + rem + 1, slp + rem⟩ := by
  intro rem
  induction rem with
  | zero => intro att slp; simp [fetchGo]
  | succ r ih =>
      intro att slp
      have h1 : fetchGo (fun n => FetchAttempt.failure (m n)) (Nat.succ r) att slp
          = fetchGo (fun n => FetchAttempt.failure (m n)) r (att + 1) (slp + 1) := rfl
      have e1 : att + 1 + r = att + Nat.succ r := by omega
      have e3 : slp + 1 + r = slp + Nat.succ r := by omega
      rw [h1, ih (att + 1) (slp + 1), e1, e3]

theorem fetchGo_immediate {transport : Nat → FetchAttempt}
    {attempt status : Nat} {body : String}
    (h : transport attempt = FetchAttempt.success status body)
    (h403 : status ≠ 403) (h429 : status ≠ 429) (h503 : status ≠ 503)
    (remaining sleeps : Nat) :
    fetchGo transport remaining attempt sleeps =
      ⟨(status, body), attempt + 1, sleeps⟩ := by
  cases remaining with
  | zero => rw [fetchGo, h]
  | succ r =>
      rw [fetchGo, h]
      show (if status = 403 ∨ status = 429 ∨ status = 503 then
          fetchGo transport r (attempt + 1) (sleeps + 1)
        else FetchTrace.mk (status, body) (attempt + 1) sleeps)
        = FetchTrace.mk (status, body) (attempt + 1) sleeps
      rw [if_neg]
      rintro (hc | hc | hc) <;> simp_all

/-! ### Helper lemmas about deduplication and the collector -/

theorem firstOccurrences_nil : firstOccurrences [] = [] := by rw [firstOccurrences]

theorem firstOccurrences_cons (a : String) (t : List String) :
    firstOccurrences (a :: t) =
      a :: firstOccurrences (t.filter (fun x => x ≠ a)) := by
  rw [firstOccurrences]

theorem mem_firstOccurrences {x : String} :
    ∀ {l : List String}, x ∈ firstOccurrences l → x ∈ l := by
  intro l
  induction l using firstOccurrences.induct with
  | case1 => simp [firstOccurrences_nil]
  | case2 a t ih =>
      rw [firstOccurrences_cons]
      intro h
      rcases List.mem_cons.mp h with h | h
      · simp [h]
      · exact List.mem_cons_of_mem _ (List.mem_of_mem_filter (ih h))

theorem firstOccurrences_nodup : ∀ (l : List String), (firstOccurrences l).Nodup := by
  intro l
  induction l using firstOccurrences.induct with
  | case1 => simp [firstOccurrences_nil]
  | case2 a t ih =>
      rw [firstOccurrences_cons]
      refine List.nodup_cons.mpr ⟨?_, ih⟩
      intro hmem
      have := List.of_mem_filter (mem_firstOccurrences hmem)
      simp at this

theorem dedupeGo_spec :
    ∀ (l seen deduped : List String),
      dedupeGo seen deduped l =
        deduped ++ firstOccurrences (l.filter (fun v => decide (v ∉ seen))) := by
  intro l
  induction l with
  | nil => intro seen deduped; simp [dedupeGo, firstOccurrences_nil]
  | cons v rest ih =>
      intro seen deduped
      rw [dedupeGo]
      by_cases hv : v ∈ seen
      · rw [if_pos hv, ih]
        have hfc : List.filter (fun x => decide (x ∉ seen)) (v :: rest)
            = List.filter (fun x => decide (x ∉ seen)) rest := by
          rw [List.filter_cons, if_neg (by simp [hv])]
        rw [hfc]
      · rw [if_neg hv, ih]
        have hfc : List.filter (fun x => decide (x ∉ seen)) (v :: rest)
            = v :: List.filter (fun x => decide (x ∉ seen)) rest := by
          rw [List.filter_cons, if_pos (by simpa using hv)]
        rw [hfc, firstOccurrences_cons, List.append_assoc, List.singleton_append]
        congr 2
        rw [List.filter_filter]
        refine congrArg firstOccurrences (List.filter_congr ?_)
        intro x _
        by_cases h1 : x = v <;> by_cases h2 : x ∈ seen <;> simp [h1, h2]

theorem dedupe_keep_order_eq_firstOccurrences (values : List String) :
    dedupe_keep_order values = firstOccurrences values := by
  rw [dedupe_keep_order, dedupeGo_spec]
  simp

theorem collectGo_spec (delay : ℚ) :
    ∀ (pages : List SearchPage) (acc : List String) (sleeps : Nat),
      collectGo delay pages acc sleeps =
        (dedupe_keep_order
            (acc ++ ((pages.filter (fun p => p.status == 200)).map SearchPage.urls).flatten),
          sleeps +
            (if delay ≠ 0 then
              (pages.filter (fun p => p.status == 200)).length
             else 0)) := by
  intro pages
  induction pages with
  | nil => intro acc sleeps; simp [collectGo]
  | cons p rest ih =>
      intro acc sleeps
      rw [collectGo]
      by_cases hs : p.status ≠ 200
      · rw [if_pos hs, ih]
        have : (p.status == 200) = false := by simpa using hs
        simp [List.filter_cons, this]
      · rw [if_neg hs]
        push_neg at hs
        rw [ih]
        have h200 : (p.status == 200) = true := by simpa using hs
        simp only [List.filter_cons, h200, if_true, List.map_cons, List.flatten_cons,
          List.length_cons, List.append_assoc, Prod.mk.injEq]
        refine ⟨trivial, ?_⟩
        split_ifs <;> omega

/-! ### Helper lemmas about the euro-amount scanner -/

theorem euroScan_group_chars :
    ∀ {cs : List Char} {g0 g1 : String}, euroScan cs = some (g0, g1) →
      ∀ c ∈ g1.toList, c ∈ cs := by
  intro cs
  induction cs with
  | nil => intro g0 g1 h; simp [euroScan] at h
  | cons c rest ih =>
      intro g0 g1 h
      rw [euroScan] at h
      by_cases hc : isEuroClass c
      · rw [if_pos hc] at h
        split at h
        · cases h
          intro x hx
          have hx' : x ∈ (c :: rest).takeWhile isEuroClass := hx
          exact (List.takeWhile_sublist _).mem hx'
        · exact fun x hx => List.mem_cons_of_mem _ (ih h x hx)
      · rw [if_neg hc] at h
        exact fun x hx => List.mem_cons_of_mem _ (ih h x hx)

theorem parse_int_none_of_no_digits {s : String}
    (h : ∀ c ∈ s.toList, c.isDigit = false) : parse_int s = none := by
  unfold parse_int
  have hd : (s.toList.filter
      (fun c => !(c == '\xa0' || c == ' ' || c == '.' || c == ','))).filter
        Char.isDigit = [] := by
    rw [List.filter_eq_nil_iff]
    intro a ha
    exact (by simp [h a (List.mem_of_mem_filter ha)] : ¬ a.isDigit = true)
  simp only [hd]
  rfl

/-! ### Helper lemmas about the JSON-LD layer's keys -/

theorem mem_of_pyGetOpt {α : Type} {r : List (String × α)} {k : String} {v : α}
    (h : pyGetOpt r k = some v) : (k, v) ∈ r := by
  unfold pyGetOpt at h
  cases hf : r.find? (fun p => p.1 == k) with
  | none => rw [hf] at h; cases h
  | some p =>
      rw [hf] at h
      cases p with
      | mk a b =>
        have hm := List.mem_of_find?_eq_some hf
        have hp := List.find?_some hf
        have hb : b = v := by simpa using h
        have ha : a = k := by simpa [beq_iff_eq] using hp
        cases hb
        cases ha
        exact hm

/-- The field names the structured-data layer can produce, in emission
order. -/
def jsonLdKeys : List String :=
  ["title", "description", "price", "price_currency", "availability",
   "street", "locality", "region", "postal_code", "country",
   "latitude", "longitude", "rooms", "area", "area_unit"]

theorem parse_json_ld_keys_sublist (d : PyDict) :
    List.Sublist (keysOf (parse_json_ld d)) jsonLdKeys := by
  unfold parse_json_ld keysOf jsonLdKeys
  simp only [List.map_append]
  show List.Sublist _ (["title"] ++ ["description"] ++
    ["price", "price_currency", "availability"] ++
    ["street", "locality", "region", "postal_code", "country"] ++
    ["latitude", "longitude"] ++ ["rooms"] ++ ["area", "area_unit"])
  refine List.Sublist.append (List.Sublist.append (List.Sublist.append
    (List.Sublist.append (List.Sublist.append (List.Sublist.append ?_ ?_) ?_) ?_) ?_) ?_) ?_
  · by_cases h : hasKey d "name" = true <;> simp [h]
  · by_cases h : hasKey d "description" = true <;> simp [h]
  · cases h : pyGetD d "offers" <;> simp
  · cases h : pyGetD d "address" <;> simp
  · cases h : pyGetD d "geo" <;> simp
  · by_cases h : hasKey d "numberOfRooms" = true <;> simp [h]
  · cases h : pyGetD d "floorSize" <;> simp

theorem parse_json_ld_keys_nodup (d : PyDict) : (keysOf (parse_json_ld d)).Nodup :=
  List.Nodup.sublist (parse_json_ld_keys_sublist d) (by decide)

theorem jsonLdKeys_of_hasKey {d : PyDict} {k : String}
    (h : hasKey (parse_json_ld d) k = true) : k ∈ jsonLdKeys :=
  (parse_json_ld_keys_sublist d).subset ((hasKey_eq_keys_mem _ _).mp h)

theorem parse_json_ld_keys_sublist_no_floor (d : PyDict)
    (hfs : ∀ fs, pyGetD d "floorSize" ≠ PyVal.dict fs) :
    List.Sublist (keysOf (parse_json_ld d))
      ["title", "description", "price", "price_currency", "availability",
       "street", "locality", "region", "postal_code", "country",
       "latitude", "longitude", "rooms"] := by
  unfold parse_json_ld keysOf
  simp only [List.map_append]
  show List.Sublist _ (["title"] ++ ["description"] ++
    ["price", "price_currency", "availability"] ++
    ["street", "locality", "region", "postal_code", "country"] ++
    ["latitude", "longitude"] ++ ["rooms"] ++ ([] : List String))
  refine List.Sublist.append (List.Sublist.append (List.Sublist.append
    (List.Sublist.append (List.Sublist.append (List.Sublist.append ?_ ?_) ?_) ?_) ?_) ?_) ?_
  · by_cases h : hasKey d "name" = true <;> simp [h]
  · by_cases h : hasKey d "description" = true <;> simp [h]
  · cases h : pyGetD d "offers" <;> simp
  · cases h : pyGetD d "address" <;> simp
  · cases h : pyGetD d "geo" <;> simp
  · by_cases h : hasKey d "numberOfRooms" = true <;> simp [h]
  · cases h : pyGetD d "floorSize" with
    | dict fs => exact absurd h (hfs fs)
    | null => simp
    | bool b => simp
    | int n => simp
    | float q => simp
    | str s => simp
    | list xs => simp

theorem jsonld_area_of_floorSize {d : PyDict} {fs : PyDict}
    (hfs : pyGetD d "floorSize" = PyVal.dict fs) :
    hasKey (parse_json_ld d) "area" = true := by
  unfold parse_json_ld
  simp [hasKey_append, hfs, hasKey_cons]

theorem jsonld_area_unit_implies_area {d : PyDict}
    (h : hasKey (parse_json_ld d) "area_unit" = true) :
    hasKey (parse_json_ld d) "area" = true := by
  cases hfs : pyGetD d "floorSize" with
  | dict fs => exact jsonld_area_of_floorSize hfs
  | null =>
      exfalso
      have := (parse_json_ld_keys_sublist_no_floor d (by rw [hfs]; intro fs hc; cases hc)).subset
        ((hasKey_eq_keys_mem _ _).mp h)
      simp at this
  | bool b =>
      exfalso
      have := (parse_json_ld_keys_sublist_no_floor d (by rw [hfs]; intro fs hc; cases hc)).subset
        ((hasKey_eq_keys_mem _ _).mp h)
      simp at this
  | int n =>
      exfalso
      have := (parse_json_ld_keys_sublist_no_floor d (by rw [hfs]; intro fs hc; cases hc)).subset
        ((hasKey_eq_keys_mem _ _).mp h)
      simp at this
  | float q =>
      exfalso
      have := (parse_json_ld_keys_sublist_no_floor d (by rw [hfs]; intro fs hc; cases hc)).subset
        ((hasKey_eq_keys_mem _ _).mp h)
      simp at this
  | str s =>
      exfalso
      have := (parse_json_ld_keys_sublist_no_floor d (by rw [hfs]; intro fs hc; cases hc)).subset
        ((hasKey_eq_keys_mem _ _).mp h)
      simp at this
  | list xs =>
      exfalso
      have := (parse_json_ld_keys_sublist_no_floor d (by rw [hfs]; intro fs hc; cases hc)).subset
        ((hasKey_eq_keys_mem _ _).mp h)
      simp at this

/-! ### Helper lemmas about the DOM-marker blocks -/

theorem mem_price_block {k : String} {v : PyVal} {t : Option String} {r : PyDict}
    (h : (k, v) ∈ price_block t r) :
    ∃ text, t = some text ∧ hasKey r "price" = false ∧
      ((∃ a, (extract_euro_amount text).2 = some a ∧ k = "price" ∧ v = PyVal.int a)
       ∨ (∃ s, (extract_euro_amount text).1 = some s ∧ s ≠ "" ∧
            k = "price_raw" ∧ v = PyVal.str s)
       ∨ (∃ q, parse_price_per_sqm text = some q ∧
            k = "price_per_sqm" ∧ v = PyVal.float q)) := by
  cases t with
  | none => cases h
  | some text =>
      refine ⟨text, rfl, ?_⟩
      simp only [price_block] at h
      split at h
      next => cases h
      next hp =>
        refine ⟨by simpa using hp, ?_⟩
        rcases List.mem_append.mp h with h1 | h2
        · rcases List.mem_append.mp h1 with h3 | h4
          · split at h3
            next a ha =>
              simp only [List.mem_singleton, Prod.mk.injEq] at h3
              exact Or.inl ⟨a, ha, h3.1, h3.2⟩
            next => cases h3
          · split at h4
            next s hr =>
              split at h4
              next hs =>
                simp only [List.mem_singleton, Prod.mk.injEq] at h4
                exact Or.inr (Or.inl ⟨s, hr, hs, h4.1, h4.2⟩)
              next => cases h4
            next => cases h4
        · split at h2
          next q hq =>
            simp only [List.mem_singleton, Prod.mk.injEq] at h2
            exact Or.inr (Or.inr ⟨q, hq, h2.1, h2.2⟩)
          next => cases h2

theorem price_block_congr {r1 r2 : PyDict} (t : Option String)
    (h1 : hasKey r1 "price" = false) (h2 : hasKey r2 "price" = false) :
    price_block t r1 = price_block t r2 := by
  cases t with
  | none => rfl
  | some text =>
      simp only [price_block]
      rw [if_neg (by simp [h1]), if_neg (by simp [h2])]

theorem mem_hardfacts_block {k : String} {v : PyVal} {t : Option String} {r : PyDict}
    (h : (k, v) ∈ hardfacts_block t r) :
    ∃ text, t = some text ∧
      ((∃ q, parse_rooms text = some q ∧ hasKey r "rooms" = false ∧
          k = "rooms" ∧ v = PyVal.float q)
       ∨ (∃ q, parse_area text = some q ∧ hasKey r "area" = false ∧
            ((k = "area" ∧ v = PyVal.float q) ∨ (k = "area_unit" ∧ v = PyVal.str "m2")))) := by
  cases t with
  | none => cases h
  | some text =>
      refine ⟨text, rfl, ?_⟩
      simp only [hardfacts_block] at h
      rcases List.mem_append.mp h with h1 | h2
      · split at h1
        next => cases h1
        next hg =>
          split at h1
          next q hq =>
            simp only [List.mem_singleton, Prod.mk.injEq] at h1
            exact Or.inl ⟨q, hq, by simpa using hg, h1.1, h1.2⟩
          next => cases h1
      · split at h2
        next => cases h2
        next hg =>
          split at h2
          next q hq =>
            rcases List.mem_cons.mp h2 with h3 | h3
            · simp only [Prod.mk.injEq] at h3
              exact Or.inr ⟨q, hq, by simpa using hg, Or.inl ⟨h3.1, h3.2⟩⟩
            · simp only [List.mem_singleton, Prod.mk.injEq] at h3
              exact Or.inr ⟨q, hq, by simpa using hg, Or.inr ⟨h3.1, h3.2⟩⟩
          next => cases h2

theorem hardfacts_emits_rooms {r : PyDict} {text : String} {q : ℚ}
    (hg : hasKey r "rooms" = false) (hp : parse_rooms text = some q) :
    ("rooms", PyVal.float q) ∈ hardfacts_block (some text) r := by
  simp only [hardfacts_block]
  refine List.mem_append.mpr (Or.inl ?_)
  rw [if_neg (by simp [hg]), hp]
  simp

theorem hardfacts_emits_area {r : PyDict} {text : String} {q : ℚ}
    (hg : hasKey r "area" = false) (hp : parse_area text = some q) :
    ("area", PyVal.float q) ∈ hardfacts_block (some text) r := by
  simp only [hardfacts_block]
  refine List.mem_append.mpr (Or.inr ?_)
  rw [if_neg (by simp [hg]), hp]
  simp

theorem mem_location_block {k : String} {v : PyVal} {t : Option String} {r : PyDict}
    (h : (k, v) ∈ location_block t r) :
    ∃ text, t = some text ∧
      ((k = "locality" ∧ hasKey r "locality" = false ∧
          (parse_location text).1 ≠ "" ∧ v = PyVal.str (parse_location text).1)
       ∨ (∃ p, (parse_location text).2 = some p ∧ p ≠ "" ∧
            k = "postal_code" ∧ hasKey r "postal_code" = false ∧ v = PyVal.str p)
       ∨ (k = "location_raw" ∧ v = PyVal.str text)) := by
  cases t with
  | none => cases h
  | some text =>
      refine ⟨text, rfl, ?_⟩
      simp only [location_block] at h
      rcases List.mem_append.mp h with h1 | h2
      · split at h1
        next =>
          rcases List.mem_append.mp h1 with h3 | h4
          · split at h3
            next hl =>
              simp only [List.mem_singleton, Prod.mk.injEq] at h3
              simp only [Bool.and_eq_true, Bool.not_eq_true', decide_eq_true_eq] at hl
              exact Or.inl ⟨h3.1, hl.2, hl.1, h3.2⟩
            next => cases h3
          · split at h4
            next p hp =>
              split at h4
              next hc =>
                simp only [List.mem_singleton, Prod.mk.injEq] at h4
                simp only [Bool.and_eq_true, Bool.not_eq_true',
                  decide_eq_true_eq] at hc
                exact Or.inr (Or.inl ⟨p, hp, hc.1, h4.1, hc.2, h4.2⟩)
              next => cases h4
            next => cases h4
        next => cases h1
      · simp only [List.mem_singleton, Prod.mk.injEq] at h2
        exact Or.inr (Or.inr ⟨h2.1, h2.2⟩)

theorem location_emits_raw (r : PyDict) (text : String) :
    ("location_raw", PyVal.str text) ∈ location_block (some text) r := by
  simp only [location_block]
  exact List.mem_append.mpr (Or.inr (by simp))

theorem location_emits_locality {r : PyDict} {text : String}
    (hg : hasKey r "locality" = false) (hl : (parse_location text).1 ≠ "") :
    ("locality", PyVal.str (parse_location text).1) ∈ location_block (some text) r := by
  simp only [location_block]
  refine List.mem_append.mpr (Or.inl ?_)
  rw [if_pos (by simp [hg])]
  refine List.mem_append.mpr (Or.inl ?_)
  rw [if_pos (by simp [hg, hl])]
  simp

theorem location_emits_postal {r : PyDict} {text : String} {p : String}
    (hg : hasKey r "postal_code" = false) (hp : (parse_location text).2 = some p)
    (hpne : p ≠ "") :
    ("postal_code", PyVal.str p) ∈ location_block (some text) r := by
  simp only [location_block]
  refine List.mem_append.mpr (Or.inl ?_)
  rw [if_pos (by simp [hg])]
  refine List.mem_append.mpr (Or.inr ?_)
  rw [hp]
  simp [hg, hpne]

theorem mem_provider_block {k : String} {v : PyVal} {t : Option String} {r : PyDict}
    (h : (k, v) ∈ provider_block t r) :
    ∃ text, t = some text ∧ k = "provider" ∧ hasKey r "provider" = false
      ∧ v = PyVal.str text := by
  cases t with
  | none => cases h
  | some text =>
      refine ⟨text, rfl, ?_⟩
      simp only [provider_block] at h
      split at h
      next => cases h
      next hg =>
        simp only [List.mem_singleton, Prod.mk.injEq] at h
        exact ⟨h.1, by simpa using hg, h.2⟩

theorem provider_emits {r : PyDict} (text : String)
    (hg : hasKey r "provider" = false) :
    ("provider", PyVal.str text) ∈ provider_block (some text) r := by
  simp only [provider_block]
  rw [if_neg (by simp [hg])]
  simp

theorem mem_description_block {k : String} {v : PyVal} {t : Option String} {r : PyDict}
    (h : (k, v) ∈ description_block t r) :
    ∃ text, t = some text ∧ k = "description" ∧ v = PyVal.str text ∧ text ≠ ""
      ∧ (descCurrent r = "" ∨ text.length > (descCurrent r).length) := by
  cases t with
  | none => cases h
  | some text =>
      refine ⟨text, rfl, ?_⟩
      simp only [description_block] at h
      split at h
      next ht =>
        split at h
        next hc =>
          simp only [List.mem_singleton, Prod.mk.injEq] at h
          refine ⟨h.1, h.2, ht, ?_⟩
          simpa using hc
        next => cases h
      next => cases h

theorem description_emits {r : PyDict} {text : String} (ht : text ≠ "")
    (hc : descCurrent r = "" ∨ text.length > (descCurrent r).length) :
    ("description", PyVal.str text) ∈ description_block (some text) r := by
  simp only [description_block]
  rw [if_pos ht, if_pos (by simpa using hc)]
  simp

theorem mem_description_title_block {k : String} {v : PyVal} {t : Option String}
    {r : PyDict} (h : (k, v) ∈ description_title_block t r) :
    ∃ text, t = some text ∧ k = "description_title"
      ∧ hasKey r "description_title" = false ∧ v = PyVal.str text := by
  cases t with
  | none => cases h
  | some text =>
      refine ⟨text, rfl, ?_⟩
      simp only [description_title_block] at h
      split at h
      next => cases h
      next hg =>
        simp only [List.mem_singleton, Prod.mk.injEq] at h
        exact ⟨h.1, by simpa using hg, h.2⟩

theorem description_title_emits {r : PyDict} (text : String)
    (hg : hasKey r "description_title" = false) :
    ("description_title", PyVal.str text) ∈ description_title_block (some text) r := by
  simp only [description_title_block]
  rw [if_neg (by simp [hg])]
  simp

theorem mem_classified_block {k : String} {v : PyVal} {t : Option String} {r : PyDict}
    (h : (k, v) ∈ classified_block t r) :
    ∃ text, t = some text ∧
      ((∃ s, parse_labeled_value text "Online-ID" = some s ∧ s ≠ "" ∧
          k = "online_id" ∧ hasKey r "online_id" = false ∧ v = PyVal.str s)
       ∨ (∃ s, parse_labeled_value text "Referenznummer" = some s ∧ s ≠ "" ∧
            k = "reference_number" ∧ hasKey r "reference_number" = false
            ∧ v = PyVal.str s)) := by
  cases t with
  | none => cases h
  | some text =>
      refine ⟨text, rfl, ?_⟩
      simp only [classified_block] at h
      rcases List.mem_append.mp h with h1 | h2
      · split at h1
        next s ho =>
          split at h1
          next hc =>
            simp only [List.mem_singleton, Prod.mk.injEq] at h1
            simp only [Bool.and_eq_true, Bool.not_eq_true', decide_eq_true_eq] at hc
            exact Or.inl ⟨s, ho, hc.1, h1.1, hc.2, h1.2⟩
          next => cases h1
        next => cases h1
      · split at h2
        next s ho =>
          split at h2
          next hc =>
            simp only [List.mem_singleton, Prod.mk.injEq] at h2
            simp only [Bool.and_eq_true, Bool.not_eq_true', decide_eq_true_eq] at hc
            exact Or.inr ⟨s, ho, hc.1, h2.1, hc.2, h2.2⟩
          next => cases h2
        next => cases h2

theorem classified_emits_online {r : PyDict} {text s : String}
    (ho : parse_labeled_value text "Online-ID" = some s) (hs : s ≠ "")
    (hg : hasKey r "online_id" = false) :
    ("online_id", PyVal.str s) ∈ classified_block (some text) r := by
  simp only [classified_block]
  refine List.mem_append.mpr (Or.inl ?_)
  rw [ho]
  simp [hs, hg]

theorem classified_emits_reference {r : PyDict} {text s : String}
    (ho : parse_labeled_value text "Referenznummer" = some s) (hs : s ≠ "")
    (hg : hasKey r "reference_number" = false) :
    ("reference_number", PyVal.str s) ∈ classified_block (some text) r := by
  simp only [classified_block]
  refine List.mem_append.mpr (Or.inr ?_)
  rw [ho]
  simp [hs, hg]

/-! ### Keys of the whole DOM-marker layer -/

theorem price_block_keys_sublist (t : Option String) (r : PyDict) :
    List.Sublist (keysOf (price_block t r)) ["price", "price_raw", "price_per_sqm"] := by
  cases t with
  | none => simp [price_block, keysOf]
  | some text =>
      simp only [price_block]
      split
      · simp [keysOf]
      · simp only [keysOf, List.map_append]
        show List.Sublist _ (["price"] ++ ["price_raw"] ++ ["price_per_sqm"])
        refine List.Sublist.append (List.Sublist.append ?_ ?_) ?_
        · split <;> simp
        · split
          · split <;> simp
          · simp
        · split <;> simp

theorem hardfacts_block_keys_sublist (t : Option String) (r : PyDict) :
    List.Sublist (keysOf (hardfacts_block t r)) ["rooms", "area", "area_unit"] := by
  cases t with
  | none => simp [hardfacts_block, keysOf]
  | some text =>
      simp only [hardfacts_block, keysOf, List.map_append]
      show List.Sublist _ (["rooms"] ++ ["area", "area_unit"])
      refine List.Sublist.append ?_ ?_
      · split
        · simp
        · split <;> simp
      · split
        · simp
        · split <;> simp

theorem location_block_keys_sublist (t : Option String) (r : PyDict) :
    List.Sublist (keysOf (location_block t r))
      ["locality", "postal_code", "location_raw"] := by
  cases t with
  | none => simp [location_block, keysOf]
  | some text =>
      simp only [location_block, keysOf, List.map_append]
      show List.Sublist _ (["locality", "postal_code"] ++ ["location_raw"])
      refine List.Sublist.append ?_ (by simp)
      split
      · simp only [List.map_append]
        show List.Sublist _ (["locality"] ++ ["postal_code"])
        refine List.Sublist.append ?_ ?_
        · split <;> simp
        · split
          · split <;> simp
          · simp
      · simp

theorem provider_block_keys_sublist (t : Option String) (r : PyDict) :
    List.Sublist (keysOf (provider_block t r)) ["provider"] := by
  cases t with
  | none => simp [provider_block, keysOf]
  | some text =>
      simp only [provider_block]
      split <;> simp [keysOf]

theorem description_block_keys_sublist (t : Option String) (r : PyDict) :
    List.Sublist (keysOf (description_block t r)) ["description"] := by
  cases t with
  | none => simp [description_block, keysOf]
  | some text =>
      simp only [description_block]
      split
      · split <;> simp [keysOf]
      · simp [keysOf]

theorem description_title_block_keys_sublist (t : Option String) (r : PyDict) :
    List.Sublist (keysOf (description_title_block t r)) ["description_title"] := by
  cases t with
  | none => simp [description_title_block, keysOf]
  | some text =>
      simp only [description_title_block]
      split <;> simp [keysOf]

theorem classified_block_keys_sublist (t : Option String) (r : PyDict) :
    List.Sublist (keysOf (classified_block t r)) ["online_id", "reference_number"] := by
  cases t with
  | none => simp [classified_block, keysOf]
  | some text =>
      simp only [classified_block, keysOf, List.map_append]
      show List.Sublist _ (["online_id"] ++ ["reference_number"])
      refine List.Sublist.append ?_ ?_
      · split
        · split <;> simp
        · simp
      · split
        · split <;> simp
        · simp

/-- The field names the DOM-marker layer can produce, in emission order. -/
def domKeys : List String :=
  ["price", "price_raw", "price_per_sqm", "rooms", "area", "area_unit",
   "locality", "postal_code", "location_raw", "provider", "description",
   "description_title", "online_id", "reference_number"]

theorem parse_dom_bs4_keys_sublist (sel : String → Option String) (r : PyDict) :
    List.Sublist (keysOf (parse_dom_bs4 sel r)) domKeys := by
  unfold parse_dom_bs4 keysOf domKeys
  simp only [List.map_append]
  show List.Sublist _ (["price", "price_raw", "price_per_sqm"] ++
    ["rooms", "area", "area_unit"] ++ ["locality", "postal_code", "location_raw"] ++
    ["provider"] ++ ["description"] ++ ["description_title"] ++
    ["online_id", "reference_number"])
  refine List.Sublist.append (List.Sublist.append (List.Sublist.append
    (List.Sublist.append (List.Sublist.append (List.Sublist.append
      (price_block_keys_sublist _ _) (hardfacts_block_keys_sublist _ _))
      (location_block_keys_sublist _ _)) (provider_block_keys_sublist _ _))
    (description_block_keys_sublist _ _)) (description_title_block_keys_sublist _ _))
    (classified_block_keys_sublist _ _)

theorem parse_dom_bs4_keys_nodup (sel : String → Option String) (r : PyDict) :
    (keysOf (parse_dom_bs4 sel r)).Nodup :=
  List.Nodup.sublist (parse_dom_bs4_keys_sublist sel r) (by decide)

theorem domKeys_of_hasKey {sel : String → Option String} {r : PyDict} {k : String}
    (h : hasKey (parse_dom_bs4 sel r) k = true) : k ∈ domKeys :=
  (parse_dom_bs4_keys_sublist sel r).subset ((hasKey_eq_keys_mem _ _).mp h)

/-! ### First-writer-wins across the DOM-marker layer -/

/-- A key already present in the record is never emitted again by the
DOM-marker layer, except for `description` (length-based replacement),
`location_raw` (unconditional), `price_raw` / `price_per_sqm` (guarded by
`price`, not by themselves), and `area_unit` (guarded by `area`) — the last
three are covered by their side conditions. -/
theorem parse_dom_bs4_not_hasKey {sel : String → Option String} {r : PyDict}
    {k : String} (hk : hasKey r k = true)
    (hdesc : k ≠ "description") (hraw : k ≠ "location_raw")
    (hpraw : k ≠ "price_raw") (hpps : k ≠ "price_per_sqm")
    (hau : k = "area_unit" → hasKey r "area" = true) :
    hasKey (parse_dom_bs4 sel r) k = false := by
  cases hdk : hasKey (parse_dom_bs4 sel r) k with
  | false => rfl
  | true =>
      exfalso
      rcases (hasKey_iff_exists _ _).mp hdk with ⟨v, hv⟩
      unfold parse_dom_bs4 at hv
      rcases List.mem_append.mp hv with hv | hv7
      rcases List.mem_append.mp hv with hv | hv6
      rcases List.mem_append.mp hv with hv | hv5
      rcases List.mem_append.mp hv with hv | hv4
      rcases List.mem_append.mp hv with hv | hv3
      rcases List.mem_append.mp hv with hv1 | hv2
      · rcases mem_price_block hv1 with ⟨text, -, hg, hc⟩
        rcases hc with ⟨a, -, hk1, -⟩ | ⟨s, -, -, hk1, -⟩ | ⟨q, -, hk1, -⟩
        · rw [hk1] at hk; rw [hk] at hg; cases hg
        · exact hpraw hk1
        · exact hpps hk1
      · rcases mem_hardfacts_block hv2 with ⟨text, -, hc⟩
        rcases hc with ⟨q, -, hg, hk1, -⟩ | ⟨q, -, hg, hc2⟩
        · rw [hk1] at hk; rw [hk] at hg; cases hg
        · rcases hc2 with ⟨hk1, -⟩ | ⟨hk1, -⟩
          · rw [hk1] at hk; rw [hk] at hg; cases hg
          · rw [hau hk1] at hg; cases hg
      · rcases mem_location_block hv3 with ⟨text, -, hc⟩
        rcases hc with ⟨hk1, hg, -, -⟩ | ⟨p, -, -, hk1, hg, -⟩ | ⟨hk1, -⟩
        · rw [hk1] at hk; rw [hk] at hg; cases hg
        · rw [hk1] at hk; rw [hk] at hg; cases hg
        · exact hraw hk1
      · rcases mem_provider_block hv4 with ⟨text, -, hk1, hg, -⟩
        rw [hk1] at hk; rw [hk] at hg; cases hg
      · rcases mem_description_block hv5 with ⟨text, -, hk1, -⟩
        exact hdesc hk1
      · rcases mem_description_title_block hv6 with ⟨text, -, hk1, hg, -⟩
        rw [hk1] at hk; rw [hk] at hg; cases hg
      · rcases mem_classified_block hv7 with ⟨text, -, hc⟩
        rcases hc with ⟨s, -, -, hk1, hg, -⟩ | ⟨s, -, -, hk1, hg, -⟩ <;>
          (rw [hk1] at hk; rw [hk] at hg; cases hg)

/-- A field value surviving one DOM-marker pass, under the conditions of
`parse_dom_bs4_not_hasKey`. -/
theorem pyGetOpt_after_dom {sel : String → Option String} {r : PyDict}
    {k : String} {v : PyVal} (hget : pyGetOpt r k = some v)
    (hdesc : k ≠ "description") (hraw : k ≠ "location_raw")
    (hpraw : k ≠ "price_raw") (hpps : k ≠ "price_per_sqm")
    (hau : k = "area_unit" → hasKey r "area" = true) :
    pyGetOpt (pyUpdate r (parse_dom_bs4 sel r)) k = some v := by
  rw [pyGetOpt_pyUpdate_not_hasKey
    (parse_dom_bs4_not_hasKey (hasKey_of_pyGetOpt hget) hdesc hraw hpraw hpps hau)]
  exact hget

/-! ### Survival of JSON-LD fields through the later layers -/

/-- A JSON-LD-produced field other than `title` and `description` reaches
the final record unchanged: the DOM passes are guarded on it and the
meta-tag layer only touches `title` and `description`. -/
theorem jsonld_field_preserved_aux {page : Page} {url f : String} {v : PyVal}
    {d : PyDict} (hd : extract_json_ld page.scripts = some d)
    (hjson : pyGetOpt (parse_json_ld d) f = some v)
    (hf1 : f ≠ "title") (hf2 : f ≠ "description") :
    pyGetOpt (parse_listing page url) f = some v := by
  have hfrange : f ∈ jsonLdKeys := jsonLdKeys_of_hasKey (hasKey_of_pyGetOpt hjson)
  have hraw : f ≠ "location_raw" := by
    intro he; rw [he] at hfrange; simp [jsonLdKeys] at hfrange
  have hpraw : f ≠ "price_raw" := by
    intro he; rw [he] at hfrange; simp [jsonLdKeys] at hfrange
  have hpps : f ≠ "price_per_sqm" := by
    intro he; rw [he] at hfrange; simp [jsonLdKeys] at hfrange
  have h2 : pyGetOpt (recordAfterJsonLd page url) f = some v := by
    unfold recordAfterJsonLd
    rw [hd]
    exact pyGetOpt_pyUpdate_mem (parse_json_ld_keys_nodup d) (mem_of_pyGetOpt hjson) _
  have hau2 : f = "area_unit" → hasKey (recordAfterJsonLd page url) "area" = true := by
    intro he
    subst he
    unfold recordAfterJsonLd
    rw [hd, hasKey_pyUpdate,
      jsonld_area_unit_implies_area (hasKey_of_pyGetOpt hjson)]
    simp
  have h3 : pyGetOpt (recordAfterBs4 page url) f = some v := by
    unfold recordAfterBs4
    exact pyGetOpt_after_dom h2 hf2 hraw hpraw hpps hau2
  have hau3 : f = "area_unit" → hasKey (recordAfterBs4 page url) "area" = true := by
    intro he
    unfold recordAfterBs4
    rw [hasKey_pyUpdate, hau2 he]
    simp
  have h4 : pyGetOpt (recordAfterDom page url) f = some v := by
    unfold recordAfterDom
    by_cases hjh : page.jhAvailable = true
    · rw [if_pos hjh, parse_dom_justhtml_eq]
      exact pyGetOpt_after_dom h3 hf2 hraw hpraw hpps hau3
    · rw [if_neg hjh]
      exact h3
  have h5 : pyGetOpt (recordAfterOgTitle page url) f = some v := by
    unfold recordAfterOgTitle
    split
    · split
      · rw [pyGetOpt_pySet_ne _ _ hf1]; exact h4
      · exact h4
    · exact h4
  have h6 : pyGetOpt (recordAfterPageTitle page url) f = some v := by
    unfold recordAfterPageTitle
    split
    · split
      · rw [pyGetOpt_pySetdefault_ne _ _ hf1]; exact h5
      · exact h5
    · exact h5
  unfold parse_listing
  split
  · split
    · rw [pyGetOpt_pySetdefault_ne _ _ hf2]; exact h6
    · exact h6
  · exact h6

/-! ### The offers segment of the JSON-LD layer -/

theorem pyGetOpt_ite (c : Prop) [Decidable c] (l : List (String × PyVal)) (k : String) :
    pyGetOpt (if c then l else []) k = if c then pyGetOpt l k else none := by
  split_ifs <;> rfl

theorem parse_json_ld_offers_get {d o : PyDict} (ho : pyGetD d "offers" = PyVal.dict o) :
    pyGetOpt (parse_json_ld d) "price" = some (pyGetD o "price")
    ∧ pyGetOpt (parse_json_ld d) "price_currency" = some (pyGetD o "priceCurrency")
    ∧ pyGetOpt (parse_json_ld d) "availability" = some (pyGetD o "availability") := by
  unfold parse_json_ld
  refine ⟨?_, ?_, ?_⟩ <;>
    simp [ho, pyGetOpt_append, pyGetOpt_ite, pyGetOpt_cons, pyGetOpt_nil, Option.or]

theorem price_block_empty_of_price {t : Option String} {r : PyDict}
    (hp : hasKey r "price" = true) : price_block t r = [] := by
  cases t with
  | none => rfl
  | some text => simp [price_block, hp]

theorem hasKey_false_of_not_range {B : List (String × PyVal)} {range : List String}
    {k : String} (hsub : List.Sublist (keysOf B) range) (hk : k ∉ range) :
    hasKey B k = false := by
  cases h : hasKey B k with
  | false => rfl
  | true => exact absurd (hsub.subset ((hasKey_eq_keys_mem _ _).mp h)) hk

/-- When `price` is already in the record, the DOM-marker layer cannot
contribute any key outside the key ranges of the non-price blocks. -/
theorem dom_no_key_of_price {sel : String → Option String} {r : PyDict} {k : String}
    (hp : hasKey r "price" = true)
    (hk1 : k ∉ ["rooms", "area", "area_unit"])
    (hk2 : k ∉ ["locality", "postal_code", "location_raw"])
    (hk3 : k ∉ ["provider"]) (hk4 : k ∉ ["description"])
    (hk5 : k ∉ ["description_title"]) (hk6 : k ∉ ["online_id", "reference_number"]) :
    hasKey (parse_dom_bs4 sel r) k = false := by
  simp [parse_dom_bs4, hasKey_append, price_block_empty_of_price hp, hasKey_nil,
    hasKey_false_of_not_range (hardfacts_block_keys_sublist _ _) hk1,
    hasKey_false_of_not_range (location_block_keys_sublist _ _) hk2,
    hasKey_false_of_not_range (provider_block_keys_sublist _ _) hk3,
    hasKey_false_of_not_range (description_block_keys_sublist _ _) hk4,
    hasKey_false_of_not_range (description_title_block_keys_sublist _ _) hk5,
    hasKey_false_of_not_range (classified_block_keys_sublist _ _) hk6]

/-! ### A second DOM-marker pass over the merged record is a no-op -/

theorem bool_or_false {a b : Bool} (h : (a || b) = false) : a = false ∧ b = false := by
  cases a <;> cases b <;> simp_all

theorem mem_dom_of_price {sel : String → Option String} {r : PyDict}
    {kv : String × PyVal} (h : kv ∈ price_block (sel "cdp-price") r) :
    kv ∈ parse_dom_bs4 sel r := by
  unfold parse_dom_bs4
  simp only [List.mem_append]
  tauto

theorem mem_dom_of_hardfacts {sel : String → Option String} {r : PyDict}
    {kv : String × PyVal} (h : kv ∈ hardfacts_block (sel "cdp-hardfacts-keyfacts") r) :
    kv ∈ parse_dom_bs4 sel r := by
  unfold parse_dom_bs4
  simp only [List.mem_append]
  tauto

theorem mem_dom_of_location {sel : String → Option String} {r : PyDict}
    {kv : String × PyVal} (h : kv ∈ location_block (sel "cdp-location-address") r) :
    kv ∈ parse_dom_bs4 sel r := by
  unfold parse_dom_bs4
  simp only [List.mem_append]
  tauto

theorem mem_dom_of_provider {sel : String → Option String} {r : PyDict}
    {kv : String × PyVal}
    (h : kv ∈ provider_block
      (sel "aviv.CDP.Contacting.ProviderSection.IntermediaryCard.Title.Link") r) :
    kv ∈ parse_dom_bs4 sel r := by
  unfold parse_dom_bs4
  simp only [List.mem_append]
  tauto

theorem mem_dom_of_description {sel : String → Option String} {r : PyDict}
    {kv : String × PyVal}
    (h : kv ∈ description_block (sel "cdp-main-description-expandable-text") r) :
    kv ∈ parse_dom_bs4 sel r := by
  unfold parse_dom_bs4
  simp only [List.mem_append]
  tauto

theorem mem_dom_of_description_title {sel : String → Option String} {r : PyDict}
    {kv : String × PyVal}
    (h : kv ∈ description_title_block (sel "cdp-main-description-title") r) :
    kv ∈ parse_dom_bs4 sel r := by
  unfold parse_dom_bs4
  simp only [List.mem_append]
  tauto

theorem mem_dom_of_classified {sel : String → Option String} {r : PyDict}
    {kv : String × PyVal} (h : kv ∈ classified_block (sel "cdp-classified-keys") r) :
    kv ∈ parse_dom_bs4 sel r := by
  unfold parse_dom_bs4
  simp only [List.mem_append]
  tauto

/-- Any `description` entry of the DOM layer's output comes from the
description block (every other block emits different keys). -/
theorem dom_description_entry {sel : String → Option String} {r : PyDict} {w : PyVal}
    (h : ("description", w) ∈ parse_dom_bs4 sel r) :
    ("description", w) ∈ description_block (sel "cdp-main-description-expandable-text") r := by
  unfold parse_dom_bs4 at h
  rcases List.mem_append.mp h with h | h7
  rcases List.mem_append.mp h with h | h6
  rcases List.mem_append.mp h with h | h5
  rcases List.mem_append.mp h with h | h4
  rcases List.mem_append.mp h with h | h3
  rcases List.mem_append.mp h with h1 | h2
  · rcases mem_price_block h1 with ⟨text, -, -, hc⟩
    rcases hc with ⟨a, -, hk1, -⟩ | ⟨s, -, -, hk1, -⟩ | ⟨q, -, hk1, -⟩ <;>
      exact absurd hk1 (by decide)
  · rcases mem_hardfacts_block h2 with ⟨text, -, hc⟩
    rcases hc with ⟨q, -, -, hk1, -⟩ | ⟨q, -, -, ⟨hk1, -⟩ | ⟨hk1, -⟩⟩ <;>
      exact absurd hk1 (by decide)
  · rcases mem_location_block h3 with ⟨text, -, hc⟩
    rcases hc with ⟨hk1, -⟩ | ⟨p, -, -, hk1, -⟩ | ⟨hk1, -⟩ <;>
      exact absurd hk1 (by decide)
  · rcases mem_provider_block h4 with ⟨text, -, hk1, -⟩
    exact absurd hk1 (by decide)
  · exact h5
  · rcases mem_description_title_block h6 with ⟨text, -, hk1, -⟩
    exact absurd hk1 (by decide)
  · rcases mem_classified_block h7 with ⟨text, -, hc⟩
    rcases hc with ⟨s, -, -, hk1, -⟩ | ⟨s, -, -, hk1, -⟩ <;>
      exact absurd hk1 (by decide)

/-- Every entry a second DOM-marker pass (over the record already merged
with the first pass's output) would produce is already present with the
same value: either its guard now blocks it, or it re-extracts the same
value from the same marker text. -/
theorem dom_second_pass_mem (sel : String → Option String) (r : PyDict) :
    ∀ kv ∈ parse_dom_bs4 sel (pyUpdate r (parse_dom_bs4 sel r)),
      pyGetOpt (pyUpdate r (parse_dom_bs4 sel r)) kv.1 = some kv.2 := by
  intro kv hkv
  set P := parse_dom_bs4 sel r with hP
  set r' := pyUpdate r P with hr'
  have hnodup : (keysOf P).Nodup := parse_dom_bs4_keys_nodup sel r
  have hkk : ∀ k : String, hasKey r' k = false →
      hasKey r k = false ∧ hasKey P k = false := by
    intro k hk
    rw [hr', hasKey_pyUpdate] at hk
    exact bool_or_false hk
  unfold parse_dom_bs4 at hkv
  rcases List.mem_append.mp hkv with h | h7
  rcases List.mem_append.mp h with h | h6
  rcases List.mem_append.mp h with h | h5
  rcases List.mem_append.mp h with h | h4
  rcases List.mem_append.mp h with h | h3
  rcases List.mem_append.mp h with h1 | h2
  · -- price block: both guards are false, so the two passes coincide
    rcases mem_price_block h1 with ⟨text, -, hg', -⟩
    obtain ⟨hgr, hgP⟩ := hkk "price" hg'
    rw [price_block_congr (sel "cdp-price") hg' hgr] at h1
    exact pyGetOpt_pyUpdate_mem hnodup (mem_dom_of_price h1) r
  · -- hardfacts: a second emission is impossible
    exfalso
    rcases mem_hardfacts_block h2 with ⟨text, htext, hc⟩
    rcases hc with ⟨q, hq, hg', -, -⟩ | ⟨q, hq, hg', -⟩
    · obtain ⟨hgr, hgP⟩ := hkk "rooms" hg'
      have hm := hardfacts_emits_rooms hgr hq
      rw [← htext] at hm
      rw [(hasKey_iff_exists P "rooms").mpr ⟨_, mem_dom_of_hardfacts hm⟩] at hgP
      cases hgP
    · obtain ⟨hgr, hgP⟩ := hkk "area" hg'
      have hm := hardfacts_emits_area hgr hq
      rw [← htext] at hm
      rw [(hasKey_iff_exists P "area").mpr ⟨_, mem_dom_of_hardfacts hm⟩] at hgP
      cases hgP
  · -- location: locality/postal re-emission impossible; raw re-emits equal
    rcases mem_location_block h3 with ⟨text, htext, hc⟩
    rcases hc with ⟨hk1, hg', hl, hveq⟩ | ⟨p, hp, hpne, hk1, hg', hveq⟩ | ⟨hk1, hveq⟩
    · exfalso
      obtain ⟨hgr, hgP⟩ := hkk "locality" hg'
      have hm := location_emits_locality (r := r) hgr hl
      rw [← htext] at hm
      rw [(hasKey_iff_exists P "locality").mpr ⟨_, mem_dom_of_location hm⟩] at hgP
      cases hgP
    · exfalso
      obtain ⟨hgr, hgP⟩ := hkk "postal_code" hg'
      have hm := location_emits_postal (r := r) hgr hp hpne
      rw [← htext] at hm
      rw [(hasKey_iff_exists P "postal_code").mpr ⟨_, mem_dom_of_location hm⟩] at hgP
      cases hgP
    · have hm := location_emits_raw r text
      rw [← htext] at hm
      obtain ⟨k, v⟩ := kv
      cases hk1
      cases hveq
      exact pyGetOpt_pyUpdate_mem hnodup (mem_dom_of_location hm) r
  · -- provider: re-emission impossible
    exfalso
    rcases mem_provider_block h4 with ⟨text, htext, hk1, hg', hveq⟩
    obtain ⟨hgr, hgP⟩ := hkk "provider" hg'
    have hm := provider_emits (r := r) text hgr
    rw [← htext] at hm
    rw [(hasKey_iff_exists P "provider").mpr ⟨_, mem_dom_of_provider hm⟩] at hgP
    cases hgP
  · -- description: either the first pass stored this very text, or the
    -- length condition already failed on the unchanged current value
    rcases mem_description_block h5 with ⟨text, htext, hk1, hveq, htne, hcond⟩
    obtain ⟨k, v⟩ := kv
    cases hk1
    cases hveq
    by_cases hPd : hasKey P "description" = true
    · obtain ⟨w, hw⟩ := (hasKey_iff_exists P "description").mp hPd
      have hw5 := dom_description_entry hw
      rw [htext] at hw5
      rcases mem_description_block hw5 with ⟨text2, ht2, -, hweq, -, -⟩
      have htt : text2 = text := by
        injection ht2 with ht2'
        exact ht2'.symm
      subst htt
      subst hweq
      have hget : pyGetOpt r' "description" = some (PyVal.str text2) :=
        pyGetOpt_pyUpdate_mem hnodup hw r
      have hdc : descCurrent r' = text2 := by
        unfold descCurrent pyGetD
        rw [hget]
        simp [pyTruthy, htne, pyStr]
      rw [hdc] at hcond
      rcases hcond with hc | hc
      · exact absurd hc htne
      · exact absurd hc (lt_irrefl _)
    · have hPd' : hasKey P "description" = false := by simpa using hPd
      have hgetsame : pyGetOpt r' "description" = pyGetOpt r "description" :=
        pyGetOpt_pyUpdate_not_hasKey hPd' r
      have hdc : descCurrent r' = descCurrent r := by
        unfold descCurrent pyGetD
        rw [hgetsame]
      rw [hdc] at hcond
      have hm := description_emits htne hcond
      rw [← htext] at hm
      rw [(hasKey_iff_exists P "description").mpr ⟨_, mem_dom_of_description hm⟩] at hPd'
      cases hPd'
  · -- description title: re-emission impossible
    exfalso
    rcases mem_description_title_block h6 with ⟨text, htext, hk1, hg', hveq⟩
    obtain ⟨hgr, hgP⟩ := hkk "description_title" hg'
    have hm := description_title_emits (r := r) text hgr
    rw [← htext] at hm
    rw [(hasKey_iff_exists P "description_title").mpr
      ⟨_, mem_dom_of_description_title hm⟩] at hgP
    cases hgP
  · -- classified keys: re-emission impossible
    exfalso
    rcases mem_classified_block h7 with ⟨text, htext, hc⟩
    rcases hc with ⟨s, ho, hs, hk1, hg', hveq⟩ | ⟨s, ho, hs, hk1, hg', hveq⟩
    · obtain ⟨hgr, hgP⟩ := hkk "online_id" hg'
      have hm := classified_emits_online (r := r) ho hs hgr
      rw [← htext] at hm
      rw [(hasKey_iff_exists P "online_id").mpr ⟨_, mem_dom_of_classified hm⟩] at hgP
      cases hgP
    · obtain ⟨hgr, hgP⟩ := hkk "reference_number" hg'
      have hm := classified_emits_reference (r := r) ho hs hgr
      rw [← htext] at hm
      rw [(hasKey_iff_exists P "reference_number").mpr ⟨_, mem_dom_of_classified hm⟩] at hgP
      cases hgP

/-- Updating with a second DOM-marker pass changes nothing. -/
theorem dom_second_pass_noop (sel : String → Option String) (r : PyDict) :
    pyUpdate (pyUpdate r (parse_dom_bs4 sel r))
      (parse_dom_bs4 sel (pyUpdate r (parse_dom_bs4 sel r)))
      = pyUpdate r (parse_dom_bs4 sel r) :=
  pyUpdate_eq_self (dom_second_pass_mem sel r)

/-! ### The record key of the orchestrator -/

/-- The `id` field set from the URL at record creation survives every
extraction layer: no layer ever emits an `id` key. -/
theorem id_stable (page : Page) (url : String) :
    pyGetOpt (parse_listing page url) "id"
      = some (PyVal.str (extract_listing_id url)) := by
  have h1 : pyGetOpt (baseRecord url) "id"
      = some (PyVal.str (extract_listing_id url)) := rfl
  have h2 : pyGetOpt (recordAfterJsonLd page url) "id"
      = some (PyVal.str (extract_listing_id url)) := by
    unfold recordAfterJsonLd
    split
    next d hd =>
      rw [pyGetOpt_pyUpdate_not_hasKey
        (hasKey_false_of_not_range (parse_json_ld_keys_sublist d) (by decide))]
      exact h1
    next => exact h1
  have h3 : pyGetOpt (recordAfterBs4 page url) "id"
      = some (PyVal.str (extract_listing_id url)) := by
    unfold recordAfterBs4
    rw [pyGetOpt_pyUpdate_not_hasKey
      (hasKey_false_of_not_range (parse_dom_bs4_keys_sublist _ _) (by decide))]
    exact h2
  have h4 : pyGetOpt (recordAfterDom page url) "id"
      = some (PyVal.str (extract_listing_id url)) := by
    unfold recordAfterDom
    by_cases hjh : page.jhAvailable = true
    · rw [if_pos hjh, parse_dom_justhtml_eq,
        pyGetOpt_pyUpdate_not_hasKey
          (hasKey_false_of_not_range (parse_dom_bs4_keys_sublist _ _) (by decide))]
      exact h3
    · rw [if_neg hjh]
      exact h3
  have h5 : pyGetOpt (recordAfterOgTitle page url) "id"
      = some (PyVal.str (extract_listing_id url)) := by
    unfold recordAfterOgTitle
    split
    · split
      · rw [pyGetOpt_pySet_ne _ _ (by decide)]; exact h4
      · exact h4
    · exact h4
  have h6 : pyGetOpt (recordAfterPageTitle page url) "id"
      = some (PyVal.str (extract_listing_id url)) := by
    unfold recordAfterPageTitle
    split
    · split
      · rw [pyGetOpt_pySetdefault_ne _ _ (by decide)]; exact h5
      · exact h5
    · exact h5
  unfold parse_listing
  split
  · split
    · rw [pyGetOpt_pySetdefault_ne _ _ (by decide)]; exact h6
    · exact h6
  · exact h6

/-- The claim's keying rule, as the spec words it: the extracted `id`
field if present and non-empty, otherwise the original URL. -/
def listing_key (url : String) : String :=
  if extract_listing_id url ≠ "" then extract_listing_id url else url

theorem scrapeOne_key (fetch : String → ListingFetch) (url : String) :
    (scrapeOne fetch url).1 = listing_key url
    ∧ hasKey (scrapeOne fetch url).2 "status_code" = true := by
  constructor
  · show scrapeKey (pySet (parse_listing (fetch url).page url) "status_code"
      (PyVal.int (fetch url).status)) url = listing_key url
    unfold scrapeKey
    rw [pyGetOpt_pySet_ne _ _ (by decide), id_stable]
    simp only [pyTruthy, pyStr, listing_key]
    by_cases hx : extract_listing_id url ≠ ""
    · rw [if_pos (by simpa using hx), if_pos hx]
    · rw [if_neg (by simpa using hx), if_neg hx]
  · show hasKey (pySet (parse_listing (fetch url).page url) "status_code"
      (PyVal.int (fetch url).status)) "status_code" = true
    rw [pySet, hasKey_assocSet]
    simp

theorem assocSet_append_of_not_hasKey {α : Type} {r : List (String × α)} {k : String}
    (h : hasKey r k = false) (v : α) : assocSet r k v = r ++ [(k, v)] := by
  induction r with
  | nil => rfl
  | cons p t ih =>
      cases p with
      | mk k0 v0 =>
        rw [hasKey_cons] at h
        obtain ⟨h0, ht⟩ := bool_or_false h
        have : ¬ (k0 == k) := by simp [h0]
        simp [assocSet, this, ih ht]

theorem scrape_fold (fetch : String → ListingFetch) :
    ∀ (urls : List String) (results : List (String × PyDict)),
      (results.map Prod.fst ++ urls.map listing_key).Nodup →
      urls.foldl (fun res url =>
          assocSet res (scrapeOne fetch url).1 (scrapeOne fetch url).2) results
        = results ++ urls.map (fun u => (listing_key u, (scrapeOne fetch u).2)) := by
  intro urls
  induction urls with
  | nil => intro results _; simp
  | cons u rest ih =>
      intro results hnd
      rw [List.foldl_cons, (scrapeOne_key fetch u).1]
      have hfresh : listing_key u ∉ results.map Prod.fst := by
        rcases List.nodup_append.mp hnd with ⟨-, -, hdisj⟩
        intro hc
        exact hdisj hc (by simp)
      have hfreshKey : hasKey results (listing_key u) = false := by
        cases hh : hasKey results (listing_key u) with
        | false => rfl
        | true =>
            exfalso
            rcases (hasKey_iff_exists _ _).mp hh with ⟨v, hv⟩
            exact hfresh (List.mem_map.mpr ⟨_, hv, rfl⟩)
      rw [assocSet_append_of_not_hasKey hfreshKey]
      rw [ih (results ++ [(listing_key u, (scrapeOne fetch u).2)])
        (by simpa [List.append_assoc] using hnd)]
      simp

/-! ## The claims -/

/-- Counterexample for C2: ten listing URLs of which the first and the
last carry the same `/expose/` id; their records collide on the same key
and the mapping has nine entries, not ten. -/
theorem scrape_listings_key_collision :
    (["https://a.example/expose/x1", "https://a.example/expose/x2",
      "https://a.example/expose/x3", "https://a.example/expose/x4",
      "https://a.example/expose/x5", "https://a.example/expose/x6",
      "https://a.example/expose/x7", "https://a.example/expose/x8",
      "https://a.example/expose/x9", "https://b.example/expose/x1"]
        : List String).length = 10
    ∧ (scrape_listings
        (fun _ => ListingFetch.mk 200
          (Page.mk [] (fun _ => none) false (fun _ => none) (fun _ => none) none))
        ["https://a.example/expose/x1", "https://a.example/expose/x2",
         "https://a.example/expose/x3", "https://a.example/expose/x4",
         "https://a.example/expose/x5", "https://a.example/expose/x6",
         "https://a.example/expose/x7", "https://a.example/expose/x8",
         "https://a.example/expose/x9", "https://b.example/expose/x1"] 3).length
      = 9 := ⟨rfl, rfl⟩

/-- Claim C2 (amended): for every list of listing URLs whose derived keys
(the extracted id if non-empty, else the URL) are pairwise distinct — in
particular 10 such URLs with `maxWorkers = 3` — `scrape_listings` returns
exactly one entry per URL, keyed by that rule, with `status_code` set on
every record; two URLs deriving the same key collide and leave fewer
entries than URLs. -/
theorem scrape_listings_complete_mapping (fetch : String → ListingFetch)
    (urls : List String) (maxWorkers : Nat)
    (hnd : (urls.map listing_key).Nodup) :
    (scrape_listings fetch urls maxWorkers).length = urls.length
    ∧ (scrape_listings fetch urls maxWorkers).map Prod.fst = urls.map listing_key
    ∧ ∀ e ∈ scrape_listings fetch urls maxWorkers, hasKey e.2 "status_code" = true := by
  unfold scrape_listings
  rw [scrape_fold fetch urls [] (by simpa using hnd)]
  refine ⟨by simp, by simp, ?_⟩
  intro e he
  simp only [List.nil_append, List.mem_map] at he
  obtain ⟨u, -, hu⟩ := he
  rw [← hu]
  exact (scrapeOne_key fetch u).2

/-- Witness for C2: two URLs with distinct ids give a two-entry mapping. -/
theorem scrape_listings_complete_mapping_witness :
    (scrape_listings
        (fun _ => ListingFetch.mk 200
          (Page.mk [] (fun _ => none) false (fun _ => none) (fun _ => none) none))
        ["https://a.example/expose/p", "https://a.example/expose/q"] 3).length
      = (["https://a.example/expose/p", "https://a.example/expose/q"]
          : List String).length :=
  (scrape_listings_complete_mapping
    (fun _ => ListingFetch.mk 200
      (Page.mk [] (fun _ => none) false (fun _ => none) (fun _ => none) none))
    ["https://a.example/expose/p", "https://a.example/expose/q"] 3 (by decide)).1

/-- Counterexample for C1: a page whose JSON-LD carries
`"name": "JSON Title"` and whose `og:title` meta tag carries `"OG Title"`.
The structured-data layer sets `title` to `"JSON Title"`, yet the final
record's title is `"OG Title"`: line 58 of `immowelt.py` assigns a
non-empty `og:title` unconditionally, overwriting the JSON-LD value. -/
theorem jsonld_title_overwritten_by_og_title :
    pyGetOpt (parse_json_ld [("name", PyVal.str "JSON Title"),
        ("offers", PyVal.dict [])]) "title" = some (PyVal.str "JSON Title")
    ∧ extract_json_ld (Page.mk
        [some (PyVal.dict [("name", PyVal.str "JSON Title"), ("offers", PyVal.dict [])])]
        (fun _ => none) false (fun _ => none)
        (fun p => if p = "og:title" then some "OG Title" else none) none).scripts
      = some [("name", PyVal.str "JSON Title"), ("offers", PyVal.dict [])]
    ∧ pyGetOpt (parse_listing (Page.mk
        [some (PyVal.dict [("name", PyVal.str "JSON Title"), ("offers", PyVal.dict [])])]
        (fun _ => none) false (fun _ => none)
        (fun p => if p = "og:title" then some "OG Title" else none) none)
        "https://x/expose/1") "title" = some (PyVal.str "OG Title")
    ∧ PyVal.str "OG Title" ≠ PyVal.str "JSON Title" := by
  refine ⟨rfl, rfl, rfl, ?_⟩
  intro hcontra
  injection hcontra with hs
  exact absurd hs (by decide)

/-- Claim C1 (amended): for every field other than `description` and
`title`, a value set by the structured-data (JSON-LD) layer is never
overwritten by the DOM-marker or meta-tag layers; `title`, by exception,
is overwritten by a non-empty `og:title` meta tag. -/
theorem jsonld_fields_survive_later_layers (page : Page) (url f : String)
    (v : PyVal) (d : PyDict) (hd : extract_json_ld page.scripts = some d)
    (hjson : pyGetOpt (parse_json_ld d) f = some v)
    (hf1 : f ≠ "title") (hf2 : f ≠ "description") :
    pyGetOpt (parse_listing page url) f = some v :=
  jsonld_field_preserved_aux hd hjson hf1 hf2

/-- Witness for C1: a JSON-LD price of 123 survives to the final record on
a page where the JustHTML engine is available. -/
theorem jsonld_fields_survive_later_layers_witness :
    pyGetOpt (parse_listing (Page.mk
        [some (PyVal.dict [("offers", PyVal.dict [("price", PyVal.int 123)])])]
        (fun _ => none) true (fun _ => none) (fun _ => none) none)
        "https://x/expose/7") "price" = some (PyVal.int 123) :=
  jsonld_fields_survive_later_layers _ "https://x/expose/7" "price" (PyVal.int 123)
    [("offers", PyVal.dict [("price", PyVal.int 123)])]
    rfl rfl (by decide) (by decide)

/-- Claim C10: when the selected JSON-LD candidate has an `offers` object,
`parse_listing` sets `price`, `price_currency` and `availability` to the
offers entries (Python `None` — `PyVal.null` — when the offers object
lacks them), and since `price` is then a present key, neither DOM-marker
pass contributes `price`, `price_raw` or `price_per_sqm`. -/
theorem offers_presence_blocks_dom_price (page : Page) (url : String)
    (d o : PyDict) (hd : extract_json_ld page.scripts = some d)
    (ho : pyGetD d "offers" = PyVal.dict o) :
    (pyGetOpt (parse_listing page url) "price" = some (pyGetD o "price")
     ∧ pyGetOpt (parse_listing page url) "price_currency"
        = some (pyGetD o "priceCurrency")
     ∧ pyGetOpt (parse_listing page url) "availability"
        = some (pyGetD o "availability"))
    ∧ (hasKey (parse_dom_bs4 page.bs4Sel (recordAfterJsonLd page url)) "price" = false
       ∧ hasKey (parse_dom_bs4 page.bs4Sel (recordAfterJsonLd page url)) "price_raw" = false
       ∧ hasKey (parse_dom_bs4 page.bs4Sel (recordAfterJsonLd page url)) "price_per_sqm" = false)
    ∧ (hasKey (parse_dom_justhtml page.jhSel (recordAfterBs4 page url)) "price" = false
       ∧ hasKey (parse_dom_justhtml page.jhSel (recordAfterBs4 page url)) "price_raw" = false
       ∧ hasKey (parse_dom_justhtml page.jhSel (recordAfterBs4 page url)) "price_per_sqm" = false) := by
  obtain ⟨hgp, hgc, hga⟩ := parse_json_ld_offers_get (d := d) ho
  have hk2 : hasKey (recordAfterJsonLd page url) "price" = true := by
    unfold recordAfterJsonLd
    rw [hd, hasKey_pyUpdate, hasKey_of_pyGetOpt hgp]
    simp
  have hk3 : hasKey (recordAfterBs4 page url) "price" = true := by
    unfold recordAfterBs4
    rw [hasKey_pyUpdate, hk2]
    simp
  refine ⟨⟨?_, ?_, ?_⟩, ?_, ?_⟩
  · exact jsonld_field_preserved_aux hd hgp (by decide) (by decide)
  · exact jsonld_field_preserved_aux hd hgc (by decide) (by decide)
  · exact jsonld_field_preserved_aux hd hga (by decide) (by decide)
  · exact ⟨dom_no_key_of_price hk2 (by decide) (by decide) (by decide) (by decide)
        (by decide) (by decide),
      dom_no_key_of_price hk2 (by decide) (by decide) (by decide) (by decide)
        (by decide) (by decide),
      dom_no_key_of_price hk2 (by decide) (by decide) (by decide) (by decide)
        (by decide) (by decide)⟩
  · rw [parse_dom_justhtml_eq]
    exact ⟨dom_no_key_of_price hk3 (by decide) (by decide) (by decide) (by decide)
        (by decide) (by decide),
      dom_no_key_of_price hk3 (by decide) (by decide) (by decide) (by decide)
        (by decide) (by decide),
      dom_no_key_of_price hk3 (by decide) (by decide) (by decide) (by decide)
        (by decide) (by decide)⟩

/-- Witness for C10: an empty offers object yields a present, null-valued
`price` and a DOM pass that is blocked from writing `price_raw` even
though the price marker is present with a parseable amount. -/
theorem offers_presence_blocks_dom_price_witness :
    pyGetOpt (parse_listing (Page.mk [some (PyVal.dict [("offers", PyVal.dict [])])]
        (fun t => if t = "cdp-price" then some "450.000 €" else none)
        false (fun _ => none) (fun _ => none) none) "https://x/expose/9") "price"
      = some PyVal.null
    ∧ hasKey (parse_dom_bs4
        (Page.mk [some (PyVal.dict [("offers", PyVal.dict [])])]
          (fun t => if t = "cdp-price" then some "450.000 €" else none)
          false (fun _ => none) (fun _ => none) none).bs4Sel
        (recordAfterJsonLd
          (Page.mk [some (PyVal.dict [("offers", PyVal.dict [])])]
            (fun t => if t = "cdp-price" then some "450.000 €" else none)
            false (fun _ => none) (fun _ => none) none) "https://x/expose/9"))
        "price_raw" = false :=
  ⟨(offers_presence_blocks_dom_price (Page.mk [some (PyVal.dict [("offers", PyVal.dict [])])]
        (fun t => if t = "cdp-price" then some "450.000 €" else none)
        false (fun _ => none) (fun _ => none) none) "https://x/expose/9"
      [("offers", PyVal.dict [])] [] rfl rfl).1.1,
   (offers_presence_blocks_dom_price (Page.mk [some (PyVal.dict [("offers", PyVal.dict [])])]
        (fun t => if t = "cdp-price" then some "450.000 €" else none)
        false (fun _ => none) (fun _ => none) none) "https://x/expose/9"
      [("offers", PyVal.dict [])] [] rfl rfl).2.1.2.1⟩

/-- Claim C3: with a transport that returns 429 on the first two attempts
and then 200 with a body, `fetch_html` at `retries = 2` returns
`(200, body)` after exactly 3 request attempts and exactly 2 backoff
sleeps; and a first response whose status is outside `{403, 429, 503}` is
returned immediately — one attempt, no sleep — whatever the retry budget. -/
theorem fetch_html_retries_on_429_only :
    (fetch_html
        (fun n => if n < 2 then FetchAttempt.success 429 "busy"
          else FetchAttempt.success 200 "body") 2
      = FetchTrace.mk (200, "body") 3 2)
    ∧ ∀ (transport : Nat → FetchAttempt) (retries status : Nat) (body : String),
        transport 0 = FetchAttempt.success status body →
        status ≠ 403 → status ≠ 429 → status ≠ 503 →
        fetch_html transport retries = FetchTrace.mk (status, body) 1 0 := by
  constructor
  · rfl
  · intro transport retries status body h h403 h429 h503
    exact fetchGo_immediate h h403 h429 h503 retries 0

/-- Witness for C3: a 404 on the first attempt is returned at once even
with 5 retries allowed. -/
theorem fetch_html_retries_on_429_only_witness :
    fetch_html (fun _ => FetchAttempt.success 404 "not found") 5
      = FetchTrace.mk (404, "not found") 1 0 :=
  fetch_html_retries_on_429_only.2 (fun _ => FetchAttempt.success 404 "not found")
    5 404 "not found" rfl (by decide) (by decide) (by decide)

/-- Counterexample for C6: when the two HTML engines disagree on a marker
text (here: only the JustHTML oracle finds the price node), the record
does depend on whether JustHTML is available — with it the record gains a
`price`, without it it does not. The claim universally quantified over
pages is therefore false; it holds only when the engines agree. -/
theorem parse_listing_depends_on_justhtml :
    parse_listing (Page.mk [] (fun _ => none) true
        (fun t => if t = "cdp-price" then some "450.000 €" else none)
        (fun _ => none) none) "u"
      ≠ parse_listing (Page.withoutJH (Page.mk [] (fun _ => none) true
        (fun t => if t = "cdp-price" then some "450.000 €" else none)
        (fun _ => none) none)) "u" := by
  intro hcontra
  have h1 : hasKey (parse_listing (Page.mk [] (fun _ => none) true
      (fun t => if t = "cdp-price" then some "450.000 €" else none)
      (fun _ => none) none) "u") "price" = true := rfl
  rw [hcontra] at h1
  have h2 : hasKey (parse_listing (Page.withoutJH (Page.mk [] (fun _ => none) true
      (fun t => if t = "cdp-price" then some "450.000 €" else none)
      (fun _ => none) none)) "u") "price" = false := rfl
  rw [h2] at h1
  cases h1

/-- Claim C6 (amended): whenever the JustHTML engine reports the same
marker texts as the BeautifulSoup engine, `parse_listing` produces the
same record whether or not JustHTML is available — the second pass only
re-derives entries the first pass already wrote. -/
theorem parse_listing_engine_agreement (page : Page) (url : String)
    (hsel : page.jhSel = page.bs4Sel) :
    parse_listing page url = parse_listing (Page.withoutJH page) url := by
  have hrhs : recordAfterDom (Page.withoutJH page) url = recordAfterBs4 page url := rfl
  have hdom : recordAfterDom page url = recordAfterDom (Page.withoutJH page) url := by
    rw [hrhs]
    unfold recordAfterDom
    by_cases hjh : page.jhAvailable = true
    · rw [if_pos hjh, hsel, parse_dom_justhtml_eq]
      unfold recordAfterBs4
      exact dom_second_pass_noop page.bs4Sel (recordAfterJsonLd page url)
    · rw [if_neg hjh]
  have hmeta : (Page.withoutJH page).metaContent = page.metaContent := rfl
  have hpt : (Page.withoutJH page).pageTitle = page.pageTitle := rfl
  have h5 : recordAfterOgTitle page url = recordAfterOgTitle (Page.withoutJH page) url := by
    unfold recordAfterOgTitle
    rw [hdom, hmeta]
  have h6 : recordAfterPageTitle page url
      = recordAfterPageTitle (Page.withoutJH page) url := by
    unfold recordAfterPageTitle
    rw [h5, hpt]
  unfold parse_listing
  rw [h6, hmeta]

/-- Witness for C6: with both engine oracles literally equal, availability
of JustHTML does not change the record. -/
theorem parse_listing_engine_agreement_witness :
    parse_listing (Page.mk []
        (fun t => if t = "cdp-price" then some "450.000 €" else none) true
        (fun t => if t = "cdp-price" then some "450.000 €" else none)
        (fun _ => none) none) "u"
      = parse_listing (Page.withoutJH (Page.mk []
        (fun t => if t = "cdp-price" then some "450.000 €" else none) true
        (fun t => if t = "cdp-price" then some "450.000 €" else none)
        (fun _ => none) none)) "u" :=
  parse_listing_engine_agreement _ "u" rfl

/-- Counterexample for C4: a transport whose exception stringifies to the
empty string drives `fetch_html` at `retries = 1` to the sentinel
`(0, "")` — two attempts as claimed, but the error string is empty, not
non-empty as the claim asserts for every always-raising transport. -/
theorem fetch_html_empty_error_string :
    fetch_html (fun _ => FetchAttempt.failure "") 1 = FetchTrace.mk (0, "") 2 1
    ∧ (fetch_html (fun _ => FetchAttempt.failure "") 1).result.2 = "" :=
  ⟨rfl, rfl⟩

/-- Claim C4 (amended): with a transport raising on every attempt,
`fetch_html` makes exactly `retries + 1` attempts (2 when `retries = 1`),
never propagates the exception, and returns the sentinel `(0, e)` where
`e` is the string form of the exception raised on the final attempt —
non-empty exactly when that exception's string form is. -/
theorem fetch_html_exhaustion_sentinel (m : Nat → String) (retries : Nat) :
    fetch_html (fun n => FetchAttempt.failure (m n)) retries
      = FetchTrace.mk (0, m retries) (retries + 1) retries := by
  unfold fetch_html
  rw [fetchGo_all_failures m retries 0 0]
  simp [Nat.zero_add]

/-- Claim C5: `collect_listing_urls` returns a duplicate-free URL list
equal to the first-occurrence-ordered deduplication of the concatenated
per-page extraction results, non-200 pages contributing nothing. -/
theorem collect_listing_urls_nodup_first_occurrence
    (delay : ℚ) (pages : List SearchPage) :
    (collect_listing_urls delay pages).1.Nodup
    ∧ (collect_listing_urls delay pages).1 =
        firstOccurrences
          (((pages.filter (fun p => p.status == 200)).map SearchPage.urls).flatten) := by
  have h : (collect_listing_urls delay pages).1 =
      firstOccurrences
        (((pages.filter (fun p => p.status == 200)).map SearchPage.urls).flatten) := by
    unfold collect_listing_urls
    rw [collectGo_spec]
    simp only []
    rw [List.nil_append, dedupe_keep_order_eq_firstOccurrences]
  exact ⟨h ▸ firstOccurrences_nodup _, h⟩

/-- Counterexample for C8: with a positive delay and a single search page
whose fetch returned 404, the loop `continue`s before the politeness
sleep — zero sleeps happen, though the claim requires one after every
page fetch. -/
theorem collect_skips_sleep_on_non_200 :
    collect_listing_urls 1 [SearchPage.mk 404 ["u"]] = ([], 0) := rfl

/-- Claim C8 (amended): the sequential inter-request sleep occurs exactly
once after each page fetch that returned status 200 (when the delay is
non-zero); pages whose fetch did not return 200 are skipped with
`continue` before the sleep and contribute no sleep. -/
theorem collect_sleep_count (delay : ℚ) (pages : List SearchPage) :
    (collect_listing_urls delay pages).2 =
      if delay ≠ 0 then (pages.filter (fun p => p.status == 200)).length else 0 := by
  unfold collect_listing_urls
  rw [collectGo_spec]
  simp

/-- Claim C7: in the DOM-marker layer, a non-empty description text found
at the description marker is written exactly when no description is
present yet, or when the found text is strictly longer than the present
string; an equal-length or shorter text is never written. -/
theorem dom_description_replaced_iff_longer
    (t : Option String) (record : PyDict) (text : String)
    (ht : t = some text) (hne : text ≠ "") :
    (pyGetOpt record "description" = none →
        description_block t record = [("description", PyVal.str text)])
    ∧ ∀ s : String, pyGetOpt record "description" = some (PyVal.str s) → s ≠ "" →
        description_block t record =
          (if s.length < text.length then [("description", PyVal.str text)] else []) := by
  subst ht
  constructor
  · intro habs
    simp only [description_block, descCurrent, pyGetD, habs]
    simp [pyTruthy, hne]
  · intro s hs hsne
    simp only [description_block, descCurrent, pyGetD, hs]
    simp only [Option.getD_some]
    have htru : pyTruthy (PyVal.str s) = true := by simp [pyTruthy, hsne]
    rw [if_pos htru]
    rw [if_pos hne]
    simp only [pyStr]
    have hds : decide (s = "") = false := by simp [hsne]
    simp only [hds, Bool.false_or, decide_eq_true_eq]

/-- Witness for C7: a 4-character text replaces a 3-character stored
description. -/
theorem dom_description_replaced_iff_longer_witness :
    description_block (some "abcd") [("description", PyVal.str "xyz")]
      = (if ("xyz" : String).length < ("abcd" : String).length then
          [("description", PyVal.str "abcd")]
        else []) :=
  (dom_description_replaced_iff_longer (some "abcd")
    [("description", PyVal.str "xyz")] "abcd" rfl (by decide)).2 "xyz" rfl (by decide)

/-- Counterexample for C9: on `"Preis auf Anfrage €"` there are no digits
before the Euro sign, yet the `price_raw` capture is present (`"€"`, from
the whitespace run the character class admits); the claim's "both results
are absent" fails. -/
theorem euro_amount_raw_present_without_digits :
    extract_euro_amount "Preis auf Anfrage €" = (some "€", none)
    ∧ (extract_euro_amount "Preis auf Anfrage €").1 ≠ none := by
  constructor
  · rfl
  · intro h
    rw [show (extract_euro_amount "Preis auf Anfrage €").1 = some "€" from rfl] at h
    cases h

/-- Claim C9 (amended): `"450.000 €"` yields the integer 450000 with the
exact matched substring `"450.000 €"` as `price_raw`; and on any text
containing no digit the integer amount is absent — never an error — while
the raw capture may still be present when a separator/whitespace run
immediately precedes a Euro sign. -/
theorem euro_amount_parsing :
    extract_euro_amount "450.000 €" = (some "450.000 €", some 450000)
    ∧ ∀ text : String, (∀ c ∈ text.toList, c.isDigit = false) →
        (extract_euro_amount text).2 = none := by
  constructor
  · rfl
  · intro text h
    unfold extract_euro_amount
    cases hscan : euroScan text.toList with
    | none => rfl
    | some g =>
        cases g with
        | mk g0 g1 =>
          simp only []
          exact parse_int_none_of_no_digits
            (fun c hc => h c (euroScan_group_chars hscan c hc))

/-- Witness for C9: the digit-free text `"nur auf Anfrage"` produces an
absent amount. -/
theorem euro_amount_parsing_witness :
    (extract_euro_amount "nur auf Anfrage").2 = none :=
  euro_amount_parsing.2 "nur auf Anfrage" (by decide)

end ImmoScraper
